import Mathlib

/-!
# MasterMind on a Raspberry Pi: a verification development of `master-mind.c`

A shallow embedding of the game logic (`countMatches`, `showMatches`, `readSeq`,
the round loop, the turn loop and the button-capture loop of `main`), of the
LCD driver (`lcdPosition`, `lcdPutchar`, `lcdPuts`, ...) and of `pinMode` of
`src/master-mind.c`.

Conventions of the embedding:

* a C `int` is an `Int`; none of the counters modelled here can leave the
  range of a 32-bit integer, so no wrap-around is modelled for them;
* an `unsigned char` is a `Nat` below 256, the conversion from `int` is
  `toUChar`;
* an `int *` sequence argument is the `List Int` of the cells it points to,
  read with `List.getD`;
* the LCD functions act on the record `lcdDataStruct` and append the GPIO
  writes and delays they perform to an explicit output trace;
* diagnostic output (`printf`, `fprintf`) is not modelled.
-/

namespace MasterMind

/-! ## Constants -/

/-- Number of colours: `#define COLS 3`. -/
def COLS : Nat := 3

/-- Length of the sequence: `#define SEQL 3`. -/
def SEQL : Nat := 3

/-! ## Game logic: `countMatches` -/

/-- The local variables of `countMatches`. -/
structure MatchState where
  exactMatches : Int
  approximateMatches : Int
  seq1Matched : List Int
  seq2Matched : List Int
deriving DecidableEq

/-- The locals of `countMatches` on entry: both counters `0`,
`int seq1Matched[SEQL] = {0}` and `int seq2Matched[SEQL] = {0}`. -/
def MatchState.init : MatchState :=
  { exactMatches := 0
    approximateMatches := 0
    seq1Matched := List.replicate SEQL 0
    seq2Matched := List.replicate SEQL 0 }

/-- Body of the first loop of `countMatches` at index `i`:
`if (seq1[i] == seq2[i]) { exactMatches++; seq1Matched[i] = 1; seq2Matched[i] = 1; }`. -/
def exactBody (seq1 seq2 : List Int) (st : MatchState) (i : Nat) : MatchState :=
  if seq1.getD i 0 = seq2.getD i 0 then
    { st with
      exactMatches := st.exactMatches + 1
      seq1Matched := st.seq1Matched.set i 1
      seq2Matched := st.seq2Matched.set i 1 }
  else st

/-- The inner loop `for (int j = 0; j < SEQL; j++)` of the second pass, for a
fixed `i`, from index `j` with `todo` iterations left; it stops (`break`) at the
first `j` with `!seq2Matched[j] && seq1[i] == seq2[j]`. -/
def approxScan (seq1 seq2 : List Int) (i : Nat) (st : MatchState) : Nat → Nat → MatchState
  | _, 0 => st
  | j, todo + 1 =>
    if st.seq2Matched.getD j 0 = 0 ∧ seq1.getD i 0 = seq2.getD j 0 then
      { st with
        approximateMatches := st.approximateMatches + 1
        seq1Matched := st.seq1Matched.set i 1
        seq2Matched := st.seq2Matched.set j 1 }
    else approxScan seq1 seq2 i st (j + 1) todo

/-- Body of the second loop of `countMatches` at index `i`:
`if (!seq1Matched[i]) { for (j ...) ... }`. -/
def approxBody (seq1 seq2 : List Int) (st : MatchState) (i : Nat) : MatchState :=
  if st.seq1Matched.getD i 0 = 0 then approxScan seq1 seq2 i st 0 SEQL else st

/-- The locals of `countMatches` after the first loop
`for (int i = 0; i < SEQL; i++)`. -/
def exactPass (seq1 seq2 : List Int) : MatchState :=
  (List.range SEQL).foldl (exactBody seq1 seq2) MatchState.init

/-- The locals of `countMatches` just before its `return`: both loops
`for (int i = 0; i < SEQL; i++)` have run. -/
def countMatchesState (seq1 seq2 : List Int) : MatchState :=
  (List.range SEQL).foldl (approxBody seq1 seq2) (exactPass seq1 seq2)

/-- The function `int countMatches(int *seq1, int *seq2)`:
`return exactMatches * 10 + approximateMatches;`. -/
def countMatches (seq1 seq2 : List Int) : Int :=
  (countMatchesState seq1 seq2).exactMatches * 10
    + (countMatchesState seq1 seq2).approximateMatches

/-- The two numbers `showMatches(code, ...)` prints, as the pair
`(exact, approx)`: `int approx = code % 10; int exact = (code - approx) / 10;`
(`%` and `/` of C truncate towards zero). `main` decodes `matches` with the
same two statements. -/
def showMatches (code : Int) : Int × Int :=
  let approx := Int.tmod code 10
  let exact := Int.tdiv (code - approx) 10
  (exact, approx)

/-! ## Specification-side notions for `countMatches` -/

/-- Number of indices `i < SEQL` with `g[i] == s[i]`. -/
def exactCount (g s : List Int) : Nat :=
  ((List.range SEQL).filter (fun i => g.getD i 0 = s.getD i 0)).length

/-- Sum, over every value `v` occurring in `g` or `s`, of the minimum of the
number of occurrences of `v` in `g` and in `s`. -/
def commonCount (g s : List Int) : Nat :=
  ∑ v ∈ (g ++ s).toFinset, min (g.count v) (s.count v)

/-- The values of `seq` at the indices `lo ≤ k < SEQL` whose flag in `m` is
still `0`, as a multiset. -/
def unmatched (seq m : List Int) (lo : Nat) : Multiset Int :=
  (((Finset.Ico lo SEQL).filter (fun k => m.getD k 0 = 0)).val).map (fun k => seq.getD k 0)

/-! ## LCD driver -/

/-- The command `LCD_CLEAR`, defined as `0x01`. -/
def LCD_CLEAR : Nat := 0x01

/-- The command `LCD_HOME`, defined as `0x02`. -/
def LCD_HOME : Nat := 0x02

/-- The command `LCD_DGRAM`, defined as `0x80`. -/
def LCD_DGRAM : Nat := 0x80

/-- The record `struct lcdDataStruct`. -/
structure lcdDataStruct where
  bits : Int
  rows : Int
  cols : Int
  rsPin : Int
  strbPin : Int
  dataPins : List Int
  cx : Int
  cy : Int
deriving DecidableEq

/-- What the driver does to the outside world, in program order: a call
`digitalWrite(gpio, pin, value)` (a store to the set register of the pin when
`value` is non-zero, to its clear register otherwise), a call
`delayMicroseconds(howLong)` and a call `delay(howLong)` (milliseconds). -/
inductive GpioEvent where
  | digitalWrite (pin : Int) (value : Int)
  | delayMicroseconds (howLong : Nat)
  | delay (howLong : Nat)
deriving DecidableEq

/-- The LCD record together with the output trace so far. -/
structure LcdWorld where
  lcd : lcdDataStruct
  out : List GpioEvent
deriving DecidableEq

/-- Conversion of an `int` to `unsigned char`. -/
def toUChar (v : Int) : Nat := (v % 256).toNat

/-- A call `digitalWrite(gpio, pin, value)` appended to the trace. -/
def digitalWrite (out : List GpioEvent) (pin value : Int) : List GpioEvent :=
  out ++ [GpioEvent.digitalWrite pin value]

/-- A call `delayMicroseconds(howLong)` appended to the trace. -/
def delayMicroseconds (out : List GpioEvent) (howLong : Nat) : List GpioEvent :=
  out ++ [GpioEvent.delayMicroseconds howLong]

/-- A call `delay(howLong)` appended to the trace. -/
def delay (out : List GpioEvent) (howLong : Nat) : List GpioEvent :=
  out ++ [GpioEvent.delay howLong]

/-- The function `void strobe(const struct lcdDataStruct *lcd)`. -/
def strobe (lcd : lcdDataStruct) (out : List GpioEvent) : List GpioEvent :=
  let out := digitalWrite out lcd.strbPin 1
  let out := delayMicroseconds out 50
  let out := digitalWrite out lcd.strbPin 0
  delayMicroseconds out 50

/-- The loop `for (i = 0; i < n; ++i) { digitalWrite(gpio, lcd->dataPins[i], (d & 1)); d >>= 1; }`
of `sendDataCmd`. -/
def sendBits (lcd : lcdDataStruct) (n : Nat) (d : Nat) (out : List GpioEvent) :
    List GpioEvent :=
  ((List.range n).foldl
    (fun (acc : Nat × List GpioEvent) i =>
      (acc.1 >>> 1, digitalWrite acc.2 (lcd.dataPins.getD i 0) ((acc.1 &&& 1 : Nat) : Int)))
    (d, out)).2

/-- The function `void sendDataCmd(const struct lcdDataStruct *lcd, unsigned char data)`. -/
def sendDataCmd (lcd : lcdDataStruct) (data : Nat) (out : List GpioEvent) : List GpioEvent :=
  if lcd.bits = 4 then
    let out := sendBits lcd 4 ((data >>> 4) &&& 0x0F) out
    let out := strobe lcd out
    let out := sendBits lcd 4 (data &&& 0x0F) out
    strobe lcd out
  else
    let out := sendBits lcd 8 data out
    strobe lcd out

/-- The function `void lcdPutCommand(const struct lcdDataStruct *lcd, unsigned char command)`. -/
def lcdPutCommand (lcd : lcdDataStruct) (command : Nat) (out : List GpioEvent) :
    List GpioEvent :=
  let out := digitalWrite out lcd.rsPin 0
  let out := sendDataCmd lcd command out
  delay out 2

/-- The function `void lcdHome(struct lcdDataStruct *lcd)`. -/
def lcdHome (w : LcdWorld) : LcdWorld :=
  let out := lcdPutCommand w.lcd LCD_HOME w.out
  { lcd := { w.lcd with cx := 0, cy := 0 }, out := delay out 5 }

/-- The function `void lcdClear(struct lcdDataStruct *lcd)`. -/
def lcdClear (w : LcdWorld) : LcdWorld :=
  let out := lcdPutCommand w.lcd LCD_CLEAR w.out
  let out := lcdPutCommand w.lcd LCD_HOME out
  { lcd := { w.lcd with cx := 0, cy := 0 }, out := delay out 5 }

/-- The function `void lcdPosition(struct lcdDataStruct *lcd, int x, int y)`. -/
def lcdPosition (w : LcdWorld) (x y : Int) : LcdWorld :=
  if x > w.lcd.cols ∨ x < 0 then w
  else if y > w.lcd.rows ∨ y < 0 then w
  else
    let out := lcdPutCommand w.lcd
      (toUChar (x + ((LCD_DGRAM ||| (if y > 0 then 0x40 else 0x00) : Nat) : Int))) w.out
    { lcd := { w.lcd with cx := x, cy := y }, out := out }

/-- The function `void lcdPutchar(struct lcdDataStruct *lcd, unsigned char data)`. -/
def lcdPutchar (w : LcdWorld) (data : Nat) : LcdWorld :=
  let out := digitalWrite w.out w.lcd.rsPin 1
  let out := sendDataCmd w.lcd data out
  if w.lcd.cx + 1 = w.lcd.cols then
    let cy := if w.lcd.cy + 1 = w.lcd.rows then 0 else w.lcd.cy + 1
    let lcd : lcdDataStruct := { w.lcd with cx := 0, cy := cy }
    { lcd := lcd
      out := lcdPutCommand lcd
        (toUChar (lcd.cx + ((LCD_DGRAM ||| (if lcd.cy > 0 then 0x40 else 0x00) : Nat) : Int)))
        out }
  else
    { lcd := { w.lcd with cx := w.lcd.cx + 1 }, out := out }

/-- The function `void lcdPuts(struct lcdDataStruct *lcd, const char *string)`:
`while (*string) lcdPutchar(lcd, *string++);`. The argument is the list of the
bytes found from `string` on; the loop ends at the first `0` byte (or at the
end of the list, which stands for the terminating `0`). -/
def lcdPuts (w : LcdWorld) : List Nat → LcdWorld
  | [] => w
  | c :: rest => if c = 0 then w else lcdPuts (lcdPutchar w c) rest

/-- The cursor is on the display: `0 ≤ cx < cols` and `0 ≤ cy < rows`. -/
def cursorInBounds (lcd : lcdDataStruct) : Prop :=
  0 ≤ lcd.cx ∧ lcd.cx < lcd.cols ∧ 0 ≤ lcd.cy ∧ lcd.cy < lcd.rows

instance instDecidableCursorInBounds (lcd : lcdDataStruct) : Decidable (cursorInBounds lcd) := by
  unfold cursorInBounds
  infer_instance

/-- The LCD record as `main` sets it up for the 16x2 display (`bits = 4`,
`rows = 2`, `cols = 16`, the pins of the wiring, cursor at `(0, 0)`); the four
data pins that `main` leaves unset are `0` here. -/
def lcd16x2 : lcdDataStruct :=
  { bits := 4, rows := 2, cols := 16, rsPin := 25, strbPin := 24
    dataPins := [23, 10, 27, 22, 0, 0, 0, 0], cx := 0, cy := 0 }

/-- The sixteen bytes of the text `Press the button`, which `main` writes at
the start of every turn. -/
def pressTheButton : List Nat :=
  [80, 114, 101, 115, 115, 32, 116, 104, 101, 32, 98, 117, 116, 116, 111, 110]

/-! ## The round loop of `main` -/

/-- The variables `found` and `attempts` of `main`. -/
structure RoundState where
  found : Int
  attempts : Int
deriving DecidableEq

/-- One pass through the body of `while (!found && attempts < 5)`, as far as
`found` and `attempts` go: `attempts += 1`, then, with `score` the value that
`countMatches(attSeq, theSeq)` returns in this round (the variable `matches`),
`approx = matches % 10; exact = (matches - approx) / 10;` and
`if (exact == 3) { found = 1; break; }`. The Boolean tells whether the `break`
was taken. -/
def roundBody (st : RoundState) (score : Int) : RoundState × Bool :=
  let attempts := st.attempts + 1
  let approx := Int.tmod score 10
  let exact := Int.tdiv (score - approx) 10
  if exact = 3 then ({ found := 1, attempts := attempts }, true)
  else ({ found := st.found, attempts := attempts }, false)

/-- The loop `while (!found && attempts < 5) { ... }` of `main`, driven by the
scores of the rounds (`score r` is what `countMatches` returns in the round
played after `r` earlier rounds). The result is the final state and the number
of rounds played; `none` means that `fuel` tests of the loop condition did not
suffice. -/
def roundLoop (score : Nat → Int) : Nat → Nat → RoundState → Option (RoundState × Nat)
  | 0, _, _ => none
  | fuel + 1, r, st =>
    if st.found = 0 ∧ st.attempts < 5 then
      match roundBody st (score r) with
      | (st', true) => some (st', r + 1)
      | (st', false) => roundLoop score fuel (r + 1) st'
    else some (st, r)

/-- The state of `main` on entry to the round loop: `int found = 0, attempts = 0`. -/
def RoundState.init : RoundState := { found := 0, attempts := 0 }

/-! ## The button-capture loop of `main` -/

/-- One pass through the body of `while (time(NULL) < endTime)`:
`if (waitForButton(gpio, pinButton) == 1) { buttonPressCount++; ... }` and
`if (buttonPressCount >= 3) { buttonPressCount = 3; break; }`.
`button` is the value the call of `waitForButton` yields; the Boolean tells
whether the `break` was taken. -/
def captureBody (buttonPressCount : Int) (button : Int) : Int × Bool :=
  let count := if button = 1 then buttonPressCount + 1 else buttonPressCount
  if count ≥ 3 then (3, true) else (count, false)

/-- The loop `while (time(NULL) < endTime) { ... }` of `main`. `time k` is the
value of the `k`-th call of `time(NULL)` since the start of the capture (call
`0` gives `startTime`, call `k + 1` is the loop test before poll `k`), and
`button k` is the value that the `k`-th call of `waitForButton` yields (the
source of `waitForButton` has no `return` statement, so this value is an input
of the model). The result is the final `buttonPressCount` and the number
of polls made; `none` means that `fuel` tests of the loop condition did not
suffice. -/
def captureLoop (time : Nat → Int) (button : Nat → Int) (endTime : Int) :
    Nat → Nat → Int → Option (Int × Nat)
  | 0, _, _ => none
  | fuel + 1, k, buttonPressCount =>
    if time (k + 1) < endTime then
      match captureBody buttonPressCount (button k) with
      | (count, true) => some (count, k + 1)
      | (count, false) => captureLoop time button endTime fuel (k + 1) count
    else some (buttonPressCount, k)

/-- The capture window of one turn: `startTime = time(NULL)`,
`endTime = startTime + 5`, `buttonPressCount = 0`, then the loop. -/
def capture (time : Nat → Int) (button : Nat → Int) (fuel : Nat) : Option (Int × Nat) :=
  captureLoop time button (time 0 + 5) fuel 0 0

/-- Number of polls among the first `n` at which `waitForButton` yields `1`. -/
def pressesIn (button : Nat → Int) (n : Nat) : Nat :=
  ((List.range n).filter (fun k => button k = 1)).length

/-! ## The turn loop of `main` -/

/-- The loop `while (1) { ... }` of `main` that reads the `SEQL` digits of a
guess, as far as `turn` and `attSeq` go: `turn += 1`, then the capture window
of this turn, then `attSeq[turn - 1] = buttonPressCount`, and
`if (turn == 3) break;`. `time t` and `button t` are the readings of the clock
and the values of `waitForButton` during turn `t`, `fuel` bounds the tests of
each capture loop and `todo` the passes through this loop; `none` means that
one of the two bounds did not suffice. The result is `attSeq` as it is passed
to `countMatches`. -/
def turnLoop (time : Nat → Nat → Int) (button : Nat → Nat → Int) (fuel : Nat) :
    Nat → Int → List Int → Option (List Int)
  | 0, _, _ => none
  | todo + 1, turn, attSeq =>
    match capture (time (turn + 1).toNat) (button (turn + 1).toNat) fuel with
    | none => none
    | some (buttonPressCount, _) =>
      if turn + 1 = 3 then some (attSeq.set (turn + 1 - 1).toNat buttonPressCount)
      else
        turnLoop time button fuel todo (turn + 1)
          (attSeq.set (turn + 1 - 1).toNat buttonPressCount)

/-! ## Reading a sequence from a number: `readSeq` -/

/-- The function `void readSeq(int *seq, int val)`. The argument `seq` is the
content of the buffer the pointer refers to, `none` for a `NULL` pointer; the
result is the content of the buffer of the caller afterwards (with a `NULL`
pointer the digits go to a fresh buffer that the caller never sees). -/
def readSeq (seq : Option (List Int)) (val : Int) : Option (List Int) :=
  match seq with
  | none => none
  | some cells =>
    let first := Int.tdiv val 100
    let second := Int.tdiv (Int.tmod val 100) 10
    let third := Int.tmod (Int.tmod val 100) 10
    some (((cells.set 0 first).set 1 second).set 2 third)

/-! ## GPIO: `pinMode` -/

/-- Conversion of an `int` to `uint32_t` (the content of a 32-bit register). -/
def toUInt32 (v : Int) : Nat := (v % 2 ^ 32).toNat

/-- The instruction `bic reg, mask` on 32-bit registers: `reg & ~mask`. -/
def bic (reg mask : Nat) : Nat := reg &&& (0xFFFFFFFF ^^^ mask)

/-- The instruction `orr reg, val` on 32-bit registers: `reg | val`. -/
def orr (reg val : Nat) : Nat := reg ||| val

/-- The function `void pinMode(uint32_t *gpio, int pin, int mode)`. The
register block is the map from word offsets (relative to `gpio`) to 32-bit
words. `reg = *(gpio + pin / 10)`, `offset = (pin % 10) * 3`,
`mask = 7 << offset`, then `bic reg, mask`, `orr reg, mode << offset` and the
store `*(gpio + pin / 10) = reg`. -/
def pinMode (gpio : Int → Nat) (pin mode : Int) : Int → Nat :=
  let reg := gpio (Int.tdiv pin 10)
  let offset := (Int.tmod pin 10 * 3).toNat
  let mask := toUInt32 ((7 : Int) * 2 ^ offset)
  let reg := bic reg mask
  let reg := orr reg (toUInt32 (mode * 2 ^ offset))
  Function.update gpio (Int.tdiv pin 10) reg

/-! ## The pin-level trace of one byte, as the HD44780 protocol describes it -/

/-- Bit `i` of `n`, as the value written to a pin. -/
def bitOf (n i : Nat) : Int := ((n / 2 ^ i % 2 : Nat) : Int)

/-- Data pins `0..3` set, in this order, to bits `0..3` of `nibble`. -/
def nibbleTrace (lcd : lcdDataStruct) (nibble : Nat) : List GpioEvent :=
  [GpioEvent.digitalWrite (lcd.dataPins.getD 0 0) (bitOf nibble 0),
   GpioEvent.digitalWrite (lcd.dataPins.getD 1 0) (bitOf nibble 1),
   GpioEvent.digitalWrite (lcd.dataPins.getD 2 0) (bitOf nibble 2),
   GpioEvent.digitalWrite (lcd.dataPins.getD 3 0) (bitOf nibble 3)]

/-- The strobe pulse: strobe pin HIGH, wait 50 microseconds, LOW, wait 50
microseconds. -/
def strobeTrace (lcd : lcdDataStruct) : List GpioEvent :=
  [GpioEvent.digitalWrite lcd.strbPin 1, GpioEvent.delayMicroseconds 50,
   GpioEvent.digitalWrite lcd.strbPin 0, GpioEvent.delayMicroseconds 50]

/-- The trace of one byte `b` in 4-bit mode: register-select pin set to `rs`,
the high nibble `b / 16` on the data pins, a strobe, the low nibble `b % 16`
on the data pins, a strobe. -/
def byteTrace (lcd : lcdDataStruct) (rs : Int) (b : Nat) : List GpioEvent :=
  [GpioEvent.digitalWrite lcd.rsPin rs] ++ nibbleTrace lcd (b / 16) ++ strobeTrace lcd
    ++ nibbleTrace lcd (b % 16) ++ strobeTrace lcd

/-- The nibble whose bits `0..3` are `b0..b3`. -/
def nibbleOfBits (b0 b1 b2 b3 : Int) : Int := b0 + 2 * b1 + 4 * b2 + 8 * b3

/-! ## Auxiliary lemmas on the match flags -/

theorem getD_set_self (m : List Int) (j : Nat) (h : j < m.length) :
    (m.set j 1).getD j 0 = 1 := by
  simp [List.getElem?_set, h]

theorem getD_set_of_ne (m : List Int) {j k : Nat} (h : j ≠ k) :
    (m.set j 1).getD k 0 = m.getD k 0 := by
  simp [List.getElem?_set, h]

theorem unmatched_top (seq m : List Int) : unmatched seq m SEQL = 0 := by
  simp [unmatched]

theorem unmatched_step (seq m : List Int) {i : Nat} (hi : i < SEQL) :
    unmatched seq m i =
      if m.getD i 0 = 0 then seq.getD i 0 ::ₘ unmatched seq m (i + 1)
      else unmatched seq m (i + 1) := by
  unfold unmatched
  have hIco : Finset.Ico i SEQL = insert i (Finset.Ico (i + 1) SEQL) := by
    ext k
    simp only [Finset.mem_Ico, Finset.mem_insert]
    omega
  have hni : i ∉ Finset.filter (fun k => m.getD k 0 = 0) (Finset.Ico (i + 1) SEQL) := by
    simp
  rw [hIco, Finset.filter_insert]
  split_ifs with h
  · rw [Finset.insert_val_of_not_mem hni, Multiset.map_cons]
  · rfl

theorem unmatched_set_below (seq m : List Int) {j lo : Nat} (h : j < lo) :
    unmatched seq (m.set j 1) lo = unmatched seq m lo := by
  unfold unmatched
  congr 2
  apply Finset.filter_congr
  intro k hk
  have hjk : j ≠ k := by
    have := (Finset.mem_Ico.mp hk).1
    omega
  rw [getD_set_of_ne m hjk]

theorem mem_unmatched (seq m : List Int) {j lo : Nat} (hlo : lo ≤ j) (hj : j < SEQL)
    (h0 : m.getD j 0 = 0) : seq.getD j 0 ∈ unmatched seq m lo := by
  unfold unmatched
  refine Multiset.mem_map.mpr ⟨j, ?_, rfl⟩
  exact Finset.mem_filter.mpr ⟨Finset.mem_Ico.mpr ⟨hlo, hj⟩, h0⟩

theorem unmatched_set (seq m : List Int) {j lo : Nat} (hlo : lo ≤ j) (hj : j < SEQL)
    (hlen : m.length = SEQL) (h0 : m.getD j 0 = 0) :
    unmatched seq (m.set j 1) lo = (unmatched seq m lo).erase (seq.getD j 0) := by
  unfold unmatched
  have hmem : j ∈ Finset.filter (fun k => m.getD k 0 = 0) (Finset.Ico lo SEQL) :=
    Finset.mem_filter.mpr ⟨Finset.mem_Ico.mpr ⟨hlo, hj⟩, h0⟩
  have hfil : Finset.filter (fun k => (m.set j 1).getD k 0 = 0) (Finset.Ico lo SEQL)
      = (Finset.filter (fun k => m.getD k 0 = 0) (Finset.Ico lo SEQL)).erase j := by
    ext k
    simp only [Finset.mem_filter, Finset.mem_erase]
    by_cases hk : j = k
    · subst hk
      rw [getD_set_self m j (by omega)]
      simp
    · rw [getD_set_of_ne m hk]
      constructor
      · rintro ⟨a, b⟩
        exact ⟨fun e => hk e.symm, a, b⟩
      · rintro ⟨_, a, b⟩
        exact ⟨a, b⟩
  rw [hfil, Finset.erase_val, Multiset.map_erase_of_mem _ _ hmem]

/-- What the inner scan of the second pass does: either it finds an index
`j'` whose flag is `0` and whose value is `seq1[i]` and marks both, or there is
no such index and the state is unchanged. -/
theorem approxScan_spec (seq1 seq2 : List Int) (i : Nat) (st : MatchState) :
    ∀ (todo j : Nat), j + todo = SEQL →
      (∃ j', j ≤ j' ∧ j' < SEQL ∧ st.seq2Matched.getD j' 0 = 0 ∧
          seq1.getD i 0 = seq2.getD j' 0 ∧
          approxScan seq1 seq2 i st j todo =
            { st with
              approximateMatches := st.approximateMatches + 1
              seq1Matched := st.seq1Matched.set i 1
              seq2Matched := st.seq2Matched.set j' 1 }) ∨
      ((∀ j', j ≤ j' → j' < SEQL →
          ¬ (st.seq2Matched.getD j' 0 = 0 ∧ seq1.getD i 0 = seq2.getD j' 0)) ∧
        approxScan seq1 seq2 i st j todo = st) := by
  intro todo
  induction todo with
  | zero =>
    intro j hj
    right
    refine ⟨fun j' h1 h2 => ?_, rfl⟩
    omega
  | succ todo ih =>
    intro j hj
    by_cases hc : st.seq2Matched.getD j 0 = 0 ∧ seq1.getD i 0 = seq2.getD j 0
    · left
      refine ⟨j, le_refl j, by omega, hc.1, hc.2, ?_⟩
      simp only [approxScan, if_pos hc]
    · rcases ih (j + 1) (by omega) with ⟨j', h1, h2, h3, h4, h5⟩ | ⟨h1, h2⟩
      · left
        refine ⟨j', by omega, h2, h3, h4, ?_⟩
        simp only [approxScan, if_neg hc]
        exact h5
      · right
        refine ⟨fun j' hj1 hj2 => ?_, ?_⟩
        · by_cases hjj : j' = j
          · subst hjj
            exact hc
          · exact h1 j' (by omega) hj2
        · simp only [approxScan, if_neg hc]
          exact h2

/-- One step of the second pass keeps `exactMatches` and the length of the
flags, does not touch the flags of `seq1` above `i`, and moves one unit from
the common part of the unmatched values to `approximateMatches` exactly when
`seq1[i]` is unmatched and still available in `seq2`. -/
theorem approxBody_spec (seq1 seq2 : List Int) (st : MatchState) (m1 : List Int) {i : Nat}
    (hi : i < SEQL) (hlen : st.seq2Matched.length = SEQL)
    (hm : st.seq1Matched.getD i 0 = m1.getD i 0) :
    (approxBody seq1 seq2 st i).exactMatches = st.exactMatches ∧
    (approxBody seq1 seq2 st i).seq2Matched.length = SEQL ∧
    (∀ k, i < k → (approxBody seq1 seq2 st i).seq1Matched.getD k 0
        = st.seq1Matched.getD k 0) ∧
    (approxBody seq1 seq2 st i).approximateMatches
        + Multiset.card (unmatched seq1 m1 (i + 1)
            ∩ unmatched seq2 (approxBody seq1 seq2 st i).seq2Matched 0)
      = st.approximateMatches
        + Multiset.card (unmatched seq1 m1 i ∩ unmatched seq2 st.seq2Matched 0) := by
  rw [unmatched_step seq1 m1 hi]
  unfold approxBody
  by_cases h0 : st.seq1Matched.getD i 0 = 0
  · rw [if_pos h0, if_pos (hm ▸ h0)]
    rcases approxScan_spec seq1 seq2 i st SEQL 0 (by simp) with
      ⟨j', _, h2, h3, h4, h5⟩ | ⟨h1, h2⟩
    · rw [h5]
      refine ⟨rfl, by simp [hlen], fun k hk => getD_set_of_ne _ (by omega), ?_⟩
      have hmem : seq1.getD i 0 ∈ unmatched seq2 st.seq2Matched 0 :=
        h4 ▸ mem_unmatched seq2 st.seq2Matched (Nat.zero_le j') h2 h3
      simp only []
      rw [unmatched_set seq2 st.seq2Matched (Nat.zero_le j') h2 hlen h3,
        Multiset.cons_inter_of_pos _ hmem, Multiset.card_cons, ← h4]
      push_cast
      ring
    · rw [h2]
      refine ⟨rfl, hlen, fun k _ => rfl, ?_⟩
      have hnot : seq1.getD i 0 ∉ unmatched seq2 st.seq2Matched 0 := by
        intro hmem
        unfold unmatched at hmem
        obtain ⟨j', hj', hv⟩ := Multiset.mem_map.mp hmem
        have hj2 := Finset.mem_filter.mp hj'
        exact h1 j' (Nat.zero_le j') (Finset.mem_Ico.mp hj2.1).2 ⟨hj2.2, hv.symm⟩
      rw [Multiset.cons_inter_of_neg _ hnot]
  · rw [if_neg h0, if_neg (hm ▸ h0)]
    exact ⟨rfl, hlen, fun k _ => rfl, rfl⟩

/-- Invariant of the second pass after its first `k` iterations. -/
theorem approxPass_inv (seq1 seq2 : List Int) (st0 : MatchState)
    (hlen : st0.seq2Matched.length = SEQL) :
    ∀ k, k ≤ SEQL →
      ((List.range k).foldl (approxBody seq1 seq2) st0).exactMatches = st0.exactMatches ∧
      ((List.range k).foldl (approxBody seq1 seq2) st0).seq2Matched.length = SEQL ∧
      (∀ i, k ≤ i → ((List.range k).foldl (approxBody seq1 seq2) st0).seq1Matched.getD i 0
          = st0.seq1Matched.getD i 0) ∧
      ((List.range k).foldl (approxBody seq1 seq2) st0).approximateMatches
          + Multiset.card (unmatched seq1 st0.seq1Matched k
              ∩ unmatched seq2
                  ((List.range k).foldl (approxBody seq1 seq2) st0).seq2Matched 0)
        = st0.approximateMatches
          + Multiset.card (unmatched seq1 st0.seq1Matched 0
              ∩ unmatched seq2 st0.seq2Matched 0) := by
  intro k
  induction k with
  | zero =>
    intro _
    exact ⟨rfl, hlen, fun i _ => rfl, rfl⟩
  | succ k ih =>
    intro hk
    obtain ⟨h1, h2, h3, h4⟩ := ih (by omega)
    rw [List.range_succ, List.foldl_append]
    simp only [List.foldl_cons, List.foldl_nil]
    obtain ⟨b1, b2, b3, b4⟩ :=
      approxBody_spec seq1 seq2 ((List.range k).foldl (approxBody seq1 seq2) st0)
        st0.seq1Matched (show k < SEQL by omega) h2 (h3 k (le_refl k))
    refine ⟨b1.trans h1, b2, fun i hi => ?_, b4.trans h4⟩
    rw [b3 i (by omega), h3 i (by omega)]

/-- Invariant of the first pass after its first `k` iterations. -/
theorem exactPass_inv (seq1 seq2 : List Int) :
    ∀ k, k ≤ SEQL →
      ((List.range k).foldl (exactBody seq1 seq2) MatchState.init).exactMatches
        = (((List.range k).filter (fun i => seq1.getD i 0 = seq2.getD i 0)).length : Int) ∧
      ((List.range k).foldl (exactBody seq1 seq2) MatchState.init).approximateMatches = 0 ∧
      ((List.range k).foldl (exactBody seq1 seq2) MatchState.init).seq1Matched.length
        = SEQL ∧
      ((List.range k).foldl (exactBody seq1 seq2) MatchState.init).seq2Matched
        = ((List.range k).foldl (exactBody seq1 seq2) MatchState.init).seq1Matched ∧
      (∀ i, ((List.range k).foldl (exactBody seq1 seq2) MatchState.init).seq1Matched.getD i 0
          = 0 ↔ ¬ (i < k ∧ seq1.getD i 0 = seq2.getD i 0)) := by
  intro k
  induction k with
  | zero =>
    intro _
    refine ⟨rfl, rfl, by simp [MatchState.init], rfl, fun i => ?_⟩
    simp [MatchState.init, List.getElem?_replicate]
    split_ifs <;> simp
  | succ k ih =>
    intro hk
    obtain ⟨h1, h2, h3, h4, h5⟩ := ih (by omega)
    rw [List.range_succ, List.foldl_append, List.filter_append]
    simp only [List.foldl_cons, List.foldl_nil]
    generalize (List.range k).foldl (exactBody seq1 seq2) MatchState.init = st at h1 h2 h3 h4 h5
    unfold exactBody
    by_cases hc : seq1.getD k 0 = seq2.getD k 0
    · rw [if_pos hc]
      refine ⟨?_, h2, by simp [h3], by simp [h4], fun i => ?_⟩
      · have hc' := hc
        simp only [List.getD_eq_getElem?_getD] at hc'
        simp only [h1]
        simp [List.filter_cons, hc']
      · simp only []
        by_cases hik : k = i
        · subst hik
          rw [getD_set_self _ _ (by omega)]
          simp only [one_ne_zero, false_iff, not_not]
          exact ⟨by omega, hc⟩
        · rw [getD_set_of_ne _ hik, h5 i]
          have : i < k + 1 ↔ i < k := by omega
          rw [this]
    · rw [if_neg hc]
      refine ⟨?_, h2, h3, h4, fun i => ?_⟩
      · have hc' := hc
        simp only [List.getD_eq_getElem?_getD] at hc'
        simp only [h1]
        simp [List.filter_cons, hc']
      · rw [h5 i]
        constructor
        · rintro h ⟨a, b⟩
          by_cases hik : i = k
          · subst hik
            exact hc b
          · exact h ⟨by omega, b⟩
        · rintro h ⟨a, b⟩
          exact h ⟨by omega, b⟩

theorem coe_eq_map_range (l : List Int) (h : l.length = SEQL) :
    (l : Multiset Int) = (Multiset.range SEQL).map (fun k => l.getD k 0) := by
  rw [← Multiset.coe_range, Multiset.map_coe]
  congr 1
  apply List.ext_getElem
  · simp [h]
  · intro n h1 h2
    simp [List.getElem?_eq_getElem h1]

theorem coe_split (l seq1 seq2 : List Int) (h : l.length = SEQL) :
    (l : Multiset Int)
      = ((Multiset.range SEQL).filter (fun k => seq1.getD k 0 = seq2.getD k 0)).map
          (fun k => l.getD k 0)
        + ((Multiset.range SEQL).filter (fun k => ¬ seq1.getD k 0 = seq2.getD k 0)).map
          (fun k => l.getD k 0) := by
  rw [← Multiset.map_add, Multiset.filter_add_not, ← coe_eq_map_range l h]

theorem unmatched_exactPass (seq seq1 seq2 : List Int) :
    unmatched seq (exactPass seq1 seq2).seq1Matched 0
      = ((Multiset.range SEQL).filter (fun k => ¬ seq1.getD k 0 = seq2.getD k 0)).map
          (fun k => seq.getD k 0) := by
  obtain ⟨_, _, _, _, h5⟩ := exactPass_inv seq1 seq2 SEQL (le_refl _)
  unfold unmatched exactPass
  rw [← Finset.range_eq_Ico, ← Finset.range_val, ← Finset.filter_val]
  congr 2
  apply Finset.filter_congr
  intro k hk
  rw [h5 k]
  have hk' : k < SEQL := Finset.mem_range.mp hk
  constructor
  · intro h e
    exact h ⟨hk', e⟩
  · rintro h ⟨_, e⟩
    exact h e

theorem commonCount_eq_card_inter (g s : List Int) :
    commonCount g s = Multiset.card ((g : Multiset Int) ∩ (s : Multiset Int)) := by
  have hms : ∀ a ∈ ((g : Multiset Int) ∩ (s : Multiset Int)), a ∈ (g ++ s).toFinset := by
    intro a ha
    have := (Multiset.mem_inter.mp ha).1
    simp only [List.mem_toFinset, List.mem_append]
    exact Or.inl (Multiset.mem_coe.mp this)
  rw [← Multiset.sum_count_eq_card hms]
  unfold commonCount
  simp only [Multiset.count_inter, Multiset.coe_count]

theorem exactCount_eq_card (g s : List Int) :
    exactCount g s
      = Multiset.card ((Multiset.range SEQL).filter (fun k => g.getD k 0 = s.getD k 0)) := by
  unfold exactCount
  rw [← Multiset.coe_range, Multiset.filter_coe, Multiset.coe_card]

/-- The counters of `countMatches` at its `return`, in terms of the two
sequences: `exactMatches` is the number of positions that agree, and
`approximateMatches` is what the common values leave beyond those positions. -/
theorem countMatchesState_spec (g s : List Int) (hg : g.length = SEQL)
    (hs : s.length = SEQL) :
    (countMatchesState g s).exactMatches = (exactCount g s : Int) ∧
    (countMatchesState g s).approximateMatches + (exactCount g s : Int)
      = (commonCount g s : Int) ∧
    0 ≤ (countMatchesState g s).approximateMatches := by
  obtain ⟨e1, e2, e3, e4, _⟩ := exactPass_inv g s SEQL (le_refl _)
  have hlen : (exactPass g s).seq2Matched.length = SEQL := by
    unfold exactPass
    rw [e4, e3]
  obtain ⟨a1, _, _, a4⟩ := approxPass_inv g s (exactPass g s) hlen SEQL (le_refl _)
  have hE : (exactPass g s).exactMatches = (exactCount g s : Int) := e1
  have hA0 : (exactPass g s).approximateMatches = 0 := e2
  have hm : (exactPass g s).seq2Matched = (exactPass g s).seq1Matched := e4
  rw [unmatched_top, Multiset.zero_inter, Multiset.card_zero, hA0, hm,
    unmatched_exactPass g g s, unmatched_exactPass s g s] at a4
  simp only [CharP.cast_eq_zero, add_zero, zero_add] at a4
  refine ⟨a1.trans hE, ?_, ?_⟩
  swap
  · unfold countMatchesState
    rw [a4]
    exact Int.natCast_nonneg _
  unfold countMatchesState
  have hX : ((Multiset.range SEQL).filter (fun k => g.getD k 0 = s.getD k 0)).map
        (fun k => s.getD k 0)
      = ((Multiset.range SEQL).filter (fun k => g.getD k 0 = s.getD k 0)).map
        (fun k => g.getD k 0) := by
    apply Multiset.map_congr rfl
    intro k hk
    exact ((Multiset.mem_filter.mp hk).2).symm
  have hcard : commonCount g s
      = exactCount g s + Multiset.card
          (((Multiset.range SEQL).filter (fun k => ¬ g.getD k 0 = s.getD k 0)).map
              (fun k => g.getD k 0)
            ∩ ((Multiset.range SEQL).filter (fun k => ¬ g.getD k 0 = s.getD k 0)).map
              (fun k => s.getD k 0)) := by
    rw [commonCount_eq_card_inter]
    conv_lhs => rw [coe_split g g s hg, coe_split s g s hs, hX]
    rw [← Multiset.add_inter_distrib, Multiset.card_add, Multiset.card_map,
      ← exactCount_eq_card]
  rw [hcard]
  push_cast
  rw [a4]
  ring

theorem exactCount_le (g s : List Int) : exactCount g s ≤ SEQL := by
  unfold exactCount
  calc ((List.range SEQL).filter (fun i => g.getD i 0 = s.getD i 0)).length
      ≤ (List.range SEQL).length := List.length_filter_le _ _
    _ = SEQL := List.length_range SEQL

theorem commonCount_le (g s : List Int) (hg : g.length = SEQL) : commonCount g s ≤ SEQL := by
  rw [commonCount_eq_card_inter, ← hg, ← Multiset.coe_card g]
  exact Multiset.card_le_card (Multiset.inter_le_left _ _)

theorem commonCount_comm (g s : List Int) : commonCount g s = commonCount s g := by
  rw [commonCount_eq_card_inter, commonCount_eq_card_inter, Multiset.inter_comm]

theorem exactCount_comm (g s : List Int) : exactCount g s = exactCount s g := by
  unfold exactCount
  congr 2
  funext i
  exact decide_eq_decide.mpr eq_comm

/-- Decoding `exact * 10 + approx` as `showMatches` does gives back the two
components when both are non-negative and `approx` is below `10`. -/
theorem showMatches_encode (exact approx : Int) (he : 0 ≤ exact) (ha : 0 ≤ approx)
    (ha10 : approx < 10) : showMatches (exact * 10 + approx) = (exact, approx) := by
  unfold showMatches
  have hmod : Int.tmod (exact * 10 + approx) 10 = approx := by
    rw [Int.tmod_eq_emod (by omega) (by omega)]
    omega
  simp only [hmod]
  have hdiv : Int.tdiv (exact * 10 + approx - approx) 10 = exact := by
    rw [Int.tdiv_eq_ediv (by omega) (by omega)]
    omega
  rw [hdiv]

/-- On sequences of length `SEQL` the decoding of `showMatches` gives back the
two counters of `countMatches`. -/
theorem showMatches_countMatches (g s : List Int) (hg : g.length = SEQL)
    (hs : s.length = SEQL) :
    showMatches (countMatches g s)
      = ((countMatchesState g s).exactMatches, (countMatchesState g s).approximateMatches) := by
  obtain ⟨h1, h2, h3⟩ := countMatchesState_spec g s hg hs
  have hc := commonCount_le g s hg
  unfold countMatches
  apply showMatches_encode
  · rw [h1]
    exact Int.natCast_nonneg _
  · exact h3
  · have : SEQL = 3 := rfl
    omega

/-! ## Lemmas on the LCD cursor -/

theorem lcdPutchar_lcd (w : LcdWorld) (data : Nat) :
    (lcdPutchar w data).lcd =
      if w.lcd.cx + 1 = w.lcd.cols then
        { w.lcd with cx := 0, cy := if w.lcd.cy + 1 = w.lcd.rows then 0 else w.lcd.cy + 1 }
      else { w.lcd with cx := w.lcd.cx + 1 } := by
  unfold lcdPutchar
  split_ifs <;> rfl

/-- The cursor after one more character, in closed form. -/
theorem cursor_advance (cx cy cols rows : Int) (hx0 : 0 ≤ cx) (hx : cx < cols)
    (hy0 : 0 ≤ cy) (hy : cy < rows) :
    (if cx + 1 = cols then (0 : Int) else cx + 1) = (cx + 1) % cols ∧
    (if cx + 1 = cols then (if cy + 1 = rows then (0 : Int) else cy + 1) else cy)
      = (cy + (cx + 1) / cols) % rows := by
  by_cases h : cx + 1 = cols
  · have hq : (cx + 1) / cols = 1 := by
      rw [h]
      exact Int.ediv_self (by omega)
    rw [if_pos h, if_pos h, hq, h, Int.emod_self]
    refine ⟨rfl, ?_⟩
    by_cases h2 : cy + 1 = rows
    · rw [if_pos h2, h2, Int.emod_self]
    · rw [if_neg h2, Int.emod_eq_of_lt (by omega) (by omega)]
  · have hq : (cx + 1) / cols = 0 := Int.ediv_eq_zero_of_lt (by omega) (by omega)
    rw [if_neg h, if_neg h, hq, add_zero, Int.emod_eq_of_lt (by omega) (by omega),
      Int.emod_eq_of_lt hy0 hy]
    exact ⟨rfl, rfl⟩

theorem lcdPutchar_cursor (w : LcdWorld) (data : Nat) (h : cursorInBounds w.lcd) :
    (lcdPutchar w data).lcd =
      { w.lcd with
        cx := (w.lcd.cx + 1) % w.lcd.cols
        cy := (w.lcd.cy + (w.lcd.cx + 1) / w.lcd.cols) % w.lcd.rows } := by
  obtain ⟨hx0, hx, hy0, hy⟩ := h
  obtain ⟨e1, e2⟩ := cursor_advance w.lcd.cx w.lcd.cy w.lcd.cols w.lcd.rows hx0 hx hy0 hy
  rw [lcdPutchar_lcd, ← e1, ← e2]
  split_ifs <;> rfl

theorem lcdPutchar_inBounds (w : LcdWorld) (data : Nat) (h : cursorInBounds w.lcd) :
    cursorInBounds (lcdPutchar w data).lcd := by
  have hc := h
  obtain ⟨hx0, hx, hy0, hy⟩ := h
  rw [lcdPutchar_cursor w data hc]
  exact ⟨Int.emod_nonneg _ (by omega), Int.emod_lt_of_pos _ (by omega),
    Int.emod_nonneg _ (by omega), Int.emod_lt_of_pos _ (by omega)⟩

/-- Advancing a cursor that is already `n` characters on by one more. -/
theorem cursor_add_succ (cx cy cols rows : Int) (n : Nat) (hc : 0 < cols) :
    ((cx + 1) % cols + (n : Int)) % cols = (cx + ((n + 1 : Nat) : Int)) % cols ∧
    ((cy + (cx + 1) / cols) % rows + ((cx + 1) % cols + (n : Int)) / cols) % rows
      = (cy + (cx + ((n + 1 : Nat) : Int)) / cols) % rows := by
  have hdecomp : cx + ((n + 1 : Nat) : Int)
      = ((cx + 1) % cols + (n : Int)) + (cx + 1) / cols * cols := by
    have := Int.emod_add_ediv (cx + 1) cols
    push_cast
    linarith [mul_comm ((cx + 1) / cols) cols]
  constructor
  · rw [hdecomp, Int.add_mul_emod_self]
  · rw [hdecomp, Int.add_mul_ediv_right _ _ (by omega), Int.emod_add_emod]
    congr 1
    ring

theorem lcdPuts_cursor (str : List Nat) :
    ∀ w : LcdWorld, cursorInBounds w.lcd → (∀ c ∈ str, c ≠ 0) →
      (lcdPuts w str).lcd =
        { w.lcd with
          cx := (w.lcd.cx + (str.length : Int)) % w.lcd.cols
          cy := (w.lcd.cy + (w.lcd.cx + (str.length : Int)) / w.lcd.cols) % w.lcd.rows } := by
  induction str with
  | nil =>
    intro w h _
    obtain ⟨hx0, hx, hy0, hy⟩ := h
    obtain ⟨⟨bits, rows, cols, rs, strb, pins, cx, cy⟩, out⟩ := w
    simp only [lcdPuts, List.length_nil, Nat.cast_zero, add_zero] at *
    rw [Int.emod_eq_of_lt hx0 hx, Int.ediv_eq_zero_of_lt hx0 hx, add_zero,
      Int.emod_eq_of_lt hy0 hy]
  | cons c rest ih =>
    intro w h hnz
    have hc : c ≠ 0 := hnz c (List.mem_cons_self c rest)
    have hrest : ∀ d ∈ rest, d ≠ 0 := fun d hd => hnz d (List.mem_cons_of_mem c hd)
    have hpos : 0 < w.lcd.cols := by
      obtain ⟨hx0, hx, _, _⟩ := h
      omega
    simp only [lcdPuts, if_neg hc]
    rw [ih (lcdPutchar w c) (lcdPutchar_inBounds w c h) hrest, lcdPutchar_cursor w c h]
    obtain ⟨e1, e2⟩ := cursor_add_succ w.lcd.cx w.lcd.cy w.lcd.cols w.lcd.rows rest.length hpos
    simp only [List.length_cons]
    rw [← e1, ← e2]

/-! ## Lemmas on the round loop and the capture loop -/

/-- The round loop from a state in which `r` rounds have been played without a
win: with enough fuel it stops, either at the first later round that scores
three exact matches or after round five. -/
theorem roundLoop_spec (score : Nat → Int) :
    ∀ (fuel r : Nat) (st : RoundState), st.found = 0 → st.attempts = (r : Int) → r ≤ 5 →
      5 - r < fuel →
      ∃ st' rounds, roundLoop score fuel r st = some (st', rounds) ∧
        r ≤ rounds ∧ rounds ≤ 5 ∧ st'.attempts = (rounds : Int) ∧
        ((st'.found = 1 ∧ r + 1 ≤ rounds ∧ (showMatches (score (rounds - 1))).1 = 3 ∧
            ∀ k, r ≤ k → k < rounds - 1 → (showMatches (score k)).1 ≠ 3) ∨
          (st'.found = 0 ∧ rounds = 5 ∧
            ∀ k, r ≤ k → k < 5 → (showMatches (score k)).1 ≠ 3)) := by
  intro fuel
  induction fuel with
  | zero =>
    intro r st _ _ _ hf
    omega
  | succ fuel ih =>
    intro r st hfound hatt hr hf
    by_cases hlt : r < 5
    · have hguard : st.found = 0 ∧ st.attempts < 5 := ⟨hfound, by omega⟩
      by_cases hwin : (showMatches (score r)).1 = 3
      · have hbody : roundBody st (score r)
            = ({ found := 1, attempts := st.attempts + 1 }, true) := by
          unfold roundBody
          exact if_pos hwin
        refine ⟨{ found := 1, attempts := st.attempts + 1 }, r + 1, ?_, by omega, by omega,
          ?_, Or.inl ⟨rfl, le_refl _, ?_, fun k h1 h2 => ?_⟩⟩
        · simp only [roundLoop, if_pos hguard, hbody]
        · simp only [hatt]
          push_cast
          rfl
        · simpa using hwin
        · omega
      · have hbody : roundBody st (score r)
            = ({ found := st.found, attempts := st.attempts + 1 }, false) := by
          unfold roundBody
          exact if_neg hwin
        obtain ⟨st', rounds, e, h1, h2, h3, h4⟩ :=
          ih (r + 1) { found := st.found, attempts := st.attempts + 1 } hfound
            (by simp only [hatt]; push_cast; rfl) (by omega) (by omega)
        refine ⟨st', rounds, ?_, by omega, h2, h3, ?_⟩
        · simp only [roundLoop, if_pos hguard, hbody]
          exact e
        · rcases h4 with ⟨a, b, c, d⟩ | ⟨a, b, c⟩
          · refine Or.inl ⟨a, by omega, c, fun k k1 k2 => ?_⟩
            by_cases hk : k = r
            · rw [hk]
              exact hwin
            · exact d k (by omega) k2
          · refine Or.inr ⟨a, b, fun k k1 k2 => ?_⟩
            by_cases hk : k = r
            · rw [hk]
              exact hwin
            · exact c k (by omega) k2
    · have hr5 : r = 5 := by omega
      have hguard : ¬ (st.found = 0 ∧ st.attempts < 5) := by
        rintro ⟨_, h⟩
        omega
      refine ⟨st, r, ?_, le_refl _, hr, hatt, Or.inr ⟨hfound, hr5, fun k h1 h2 => ?_⟩⟩
      · simp only [roundLoop, if_neg hguard]
      · omega

theorem pressesIn_succ (button : Nat → Int) (k : Nat) :
    pressesIn button (k + 1) = pressesIn button k + (if button k = 1 then 1 else 0) := by
  unfold pressesIn
  rw [List.range_succ, List.filter_append, List.length_append]
  by_cases h : button k = 1
  · simp [List.filter_cons, h]
  · simp [List.filter_cons, h]

theorem captureBody_spec (count b : Int) (h0 : 0 ≤ count) (h3 : count < 3) :
    (captureBody count b).1 = (if b = 1 then count + 1 else count) ∧
    ((captureBody count b).2 = true ↔ (captureBody count b).1 = 3) := by
  unfold captureBody
  by_cases hb : b = 1
  · simp only [if_pos hb]
    by_cases hc : count + 1 ≥ 3
    · rw [if_pos hc]
      exact ⟨by omega, by simp⟩
    · rw [if_neg hc]
      refine ⟨rfl, ?_⟩
      simp only [Bool.false_eq_true, false_iff]
      omega
  · simp only [if_neg hb]
    have hc : ¬ count ≥ 3 := by omega
    rw [if_neg hc]
    refine ⟨rfl, ?_⟩
    simp only [Bool.false_eq_true, false_iff]
    omega

/-- Whenever the capture loop ends, the count is the number of polls that
yielded `1`, it is at most three, and it is three only if the last poll made
was a press. -/
theorem captureLoop_spec (time : Nat → Int) (button : Nat → Int) (endTime : Int) :
    ∀ (fuel k : Nat) (count : Int) (res : Int × Nat),
      captureLoop time button endTime fuel k count = some res →
      0 ≤ count → count < 3 → count = (pressesIn button k : Int) →
      0 ≤ res.1 ∧ res.1 ≤ 3 ∧ k ≤ res.2 ∧ res.1 = (pressesIn button res.2 : Int) ∧
        (res.1 = 3 → k < res.2 ∧ button (res.2 - 1) = 1) := by
  intro fuel
  induction fuel with
  | zero =>
    intro k count res h
    simp [captureLoop] at h
  | succ fuel ih =>
    intro k count res h h0 h3 hp
    obtain ⟨b1, b2⟩ := captureBody_spec count (button k) h0 h3
    by_cases ht : time (k + 1) < endTime
    · simp only [captureLoop, if_pos ht] at h
      have hnext : (captureBody count (button k)).1 = (pressesIn button (k + 1) : Int) := by
        rw [b1, pressesIn_succ, hp]
        split_ifs <;> simp
      rcases hbody : captureBody count (button k) with ⟨c, brk⟩
      rw [hbody] at h b2 hnext b1
      simp only at b2 hnext b1
      cases brk with
      | true =>
        simp only [Option.some.injEq] at h
        subst h
        have hc3 : c = 3 := b2.mp rfl
        refine ⟨by omega, by omega, by omega, hnext, fun _ => ⟨by omega, ?_⟩⟩
        simp only [Nat.add_sub_cancel]
        by_contra hne
        rw [if_neg hne] at b1
        omega
      | false =>
        simp only at h
        have hc3 : c ≠ 3 := fun e => by
          have := b2.mpr e
          simp at this
        have hcle : c ≤ count + 1 := by
          rw [b1]
          split_ifs <;> omega
        have hcge : count ≤ c := by
          rw [b1]
          split_ifs <;> omega
        obtain ⟨r1, r2, r3, r4, r5⟩ := ih (k + 1) c res h (by omega) (by omega) hnext
        exact ⟨r1, r2, by omega, r4, fun e => ⟨by have := (r5 e).1; omega, (r5 e).2⟩⟩
    · simp only [captureLoop, if_neg ht, Option.some.injEq] at h
      subst h
      exact ⟨h0, by omega, le_refl _, hp, fun e => by omega⟩

/-- If some later reading of the clock is not before `endTime`, the capture loop
ends. -/
theorem captureLoop_ends (time : Nat → Int) (button : Nat → Int) (endTime : Int) :
    ∀ (d k : Nat) (count : Int), ¬ time (k + d + 1) < endTime →
      ∃ res, captureLoop time button endTime (d + 1) k count = some res := by
  intro d
  induction d with
  | zero =>
    intro k count h
    refine ⟨(count, k), ?_⟩
    simp only [captureLoop, add_zero] at h ⊢
    rw [if_neg h]
  | succ d ih =>
    intro k count h
    by_cases ht : time (k + 1) < endTime
    · rcases hbody : captureBody count (button k) with ⟨c, brk⟩
      cases brk with
      | true =>
        refine ⟨(c, k + 1), ?_⟩
        simp only [captureLoop, if_pos ht, hbody]
      | false =>
        have h' : ¬ time (k + 1 + d + 1) < endTime := by
          have e : k + 1 + d + 1 = k + (d + 1) + 1 := by omega
          rw [e]
          exact h
        obtain ⟨res, hres⟩ := ih (k + 1) c h'
        refine ⟨res, ?_⟩
        rw [← hres]
        simp only [captureLoop, if_pos ht, hbody]
    · refine ⟨(count, k), ?_⟩
      simp only [captureLoop, if_neg ht]

/-! ## The score of a round -/

/-- C1: for every guess `g` and secret `s` of length `SEQL`, `countMatches g s`
is `10 * E + A`, where `E` is the number of indices at which `g` and `s` agree
and `A` is the sum over all values of the minimum of their numbers of
occurrences in `g` and in `s`, minus `E` (a genuine difference: `E` is at most
that sum); `E` and `A` are the two counters of the function. With the secret
`[2,3,1]` the guesses `[2,3,1]`, `[1,2,3]` and `[2,2,2]` score `(3,0)`, `(0,3)`
and `(1,0)`. -/
theorem countMatches_eq_standard_score (g s : List Int) (hg : g.length = SEQL)
    (hs : s.length = SEQL) :
    countMatches g s
        = 10 * (exactCount g s : Int) + ((commonCount g s : Int) - (exactCount g s : Int)) ∧
      exactCount g s ≤ commonCount g s ∧
      (countMatchesState g s).exactMatches = (exactCount g s : Int) ∧
      (countMatchesState g s).approximateMatches
        = ((commonCount g s - exactCount g s : Nat) : Int) ∧
      (countMatches [2, 3, 1] [2, 3, 1] = 30 ∧
        showMatches (countMatches [2, 3, 1] [2, 3, 1]) = (3, 0)) ∧
      (countMatches [1, 2, 3] [2, 3, 1] = 3 ∧
        showMatches (countMatches [1, 2, 3] [2, 3, 1]) = (0, 3)) ∧
      (countMatches [2, 2, 2] [2, 3, 1] = 10 ∧
        showMatches (countMatches [2, 2, 2] [2, 3, 1]) = (1, 0)) := by
  obtain ⟨h1, h2, h3⟩ := countMatchesState_spec g s hg hs
  have hle : exactCount g s ≤ commonCount g s := by omega
  refine ⟨?_, hle, h1, ?_, by decide, by decide, by decide⟩
  · unfold countMatches
    rw [h1]
    omega
  · rw [Nat.cast_sub hle]
    omega

theorem countMatches_eq_standard_score_witness :
    countMatches [1, 2, 1] [1, 1, 2] = 10 * 1 + (3 - 1) := by
  have h := (countMatches_eq_standard_score [1, 2, 1] [1, 1, 2] (by decide) (by decide)).1
  have hE : exactCount [1, 2, 1] [1, 1, 2] = 1 := by decide
  have hC : commonCount [1, 2, 1] [1, 1, 2] = 3 := by decide
  rw [hE, hC] at h
  exact h

/-- C2: for all sequences `g`, `s` of length `SEQL` (whatever their digits, so
in particular for digits in `[1, COLS]`), `exact = countMatches g s / 10` and
`approximate = countMatches g s % 10` (division and remainder of C) satisfy
`0 ≤ exact ≤ SEQL` and `0 ≤ approximate ≤ SEQL - exact`. -/
theorem countMatches_bounds (g s : List Int) (hg : g.length = SEQL)
    (hs : s.length = SEQL) :
    0 ≤ Int.tdiv (countMatches g s) 10 ∧
      Int.tdiv (countMatches g s) 10 ≤ (SEQL : Int) ∧
      0 ≤ Int.tmod (countMatches g s) 10 ∧
      Int.tmod (countMatches g s) 10 ≤ (SEQL : Int) - Int.tdiv (countMatches g s) 10 := by
  obtain ⟨h1, h2, h3⟩ := countMatchesState_spec g s hg hs
  have hc := commonCount_le g s hg
  have hS : SEQL = 3 := rfl
  have hnn : 0 ≤ countMatches g s := by
    unfold countMatches
    omega
  rw [Int.tdiv_eq_ediv hnn (by omega), Int.tmod_eq_emod hnn (by omega)]
  unfold countMatches
  have hdiv : ((countMatchesState g s).exactMatches * 10
      + (countMatchesState g s).approximateMatches) / 10
      = (countMatchesState g s).exactMatches := by omega
  have hmod : ((countMatchesState g s).exactMatches * 10
      + (countMatchesState g s).approximateMatches) % 10
      = (countMatchesState g s).approximateMatches := by omega
  rw [hdiv, hmod, hS]
  omega

theorem countMatches_bounds_witness :
    0 ≤ Int.tdiv (countMatches [1, 2, 1] [1, 1, 2]) 10 ∧
      Int.tdiv (countMatches [1, 2, 1] [1, 1, 2]) 10 ≤ (SEQL : Int) ∧
      0 ≤ Int.tmod (countMatches [1, 2, 1] [1, 1, 2]) 10 ∧
      Int.tmod (countMatches [1, 2, 1] [1, 1, 2]) 10
        ≤ (SEQL : Int) - Int.tdiv (countMatches [1, 2, 1] [1, 1, 2]) 10 :=
  countMatches_bounds [1, 2, 1] [1, 1, 2] (by decide) (by decide)

/-- C3: for every secret `s` of length `SEQL`, `countMatches s s` counts `SEQL`
exact and `0` approximate matches, and returns `SEQL * 10 = 30`. -/
theorem countMatches_self (s : List Int) (hs : s.length = SEQL) :
    (countMatchesState s s).exactMatches = (SEQL : Int) ∧
      (countMatchesState s s).approximateMatches = 0 ∧
      countMatches s s = (SEQL : Int) * 10 ∧
      countMatches s s = 30 ∧
      showMatches (countMatches s s) = ((SEQL : Int), 0) := by
  obtain ⟨h1, h2, _⟩ := countMatchesState_spec s s hs hs
  have hE : exactCount s s = SEQL := by
    unfold exactCount
    simp
  have hC : commonCount s s = SEQL := by
    rw [commonCount_eq_card_inter, ← Multiset.inf_eq_inter, inf_idem, Multiset.coe_card, hs]
  rw [hE] at h1 h2
  rw [hC] at h2
  have hA : (countMatchesState s s).approximateMatches = 0 := by omega
  have hS : ((SEQL : Nat) : Int) = 3 := rfl
  have hcode : countMatches s s = (SEQL : Int) * 10 := by
    unfold countMatches
    rw [h1, hA, add_zero]
  refine ⟨h1, hA, hcode, by rw [hcode, hS]; rfl, ?_⟩
  rw [showMatches_countMatches s s hs hs, h1, hA]

theorem countMatches_self_witness :
    (countMatchesState [2, 3, 1] [2, 3, 1]).exactMatches = (SEQL : Int) ∧
      (countMatchesState [2, 3, 1] [2, 3, 1]).approximateMatches = 0 ∧
      countMatches [2, 3, 1] [2, 3, 1] = (SEQL : Int) * 10 ∧
      countMatches [2, 3, 1] [2, 3, 1] = 30 ∧
      showMatches (countMatches [2, 3, 1] [2, 3, 1]) = ((SEQL : Int), 0) :=
  countMatches_self [2, 3, 1] (by decide)

/-- C4: for all `g`, `s` of length `SEQL` the total `exact + approximate` decoded
from `countMatches g s` equals the one decoded from `countMatches s g`; and for
the secret `[1,1,2]` and the guess `[1,2,1]` the result is `exact = 1`,
`approximate = 2`. -/
theorem countMatches_total_symm (g s : List Int) (hg : g.length = SEQL)
    (hs : s.length = SEQL) :
    (showMatches (countMatches g s)).1 + (showMatches (countMatches g s)).2
        = (showMatches (countMatches s g)).1 + (showMatches (countMatches s g)).2 ∧
      showMatches (countMatches [1, 2, 1] [1, 1, 2]) = (1, 2) := by
  refine ⟨?_, by decide⟩
  obtain ⟨h1, h2, _⟩ := countMatchesState_spec g s hg hs
  obtain ⟨k1, k2, _⟩ := countMatchesState_spec s g hs hg
  rw [showMatches_countMatches g s hg hs, showMatches_countMatches s g hs hg]
  simp only []
  rw [commonCount_comm s g] at k2
  rw [exactCount_comm s g] at k1 k2
  omega

theorem countMatches_total_symm_witness :
    (showMatches (countMatches [2, 2, 1] [1, 2, 3])).1
        + (showMatches (countMatches [2, 2, 1] [1, 2, 3])).2
      = (showMatches (countMatches [1, 2, 3] [2, 2, 1])).1
        + (showMatches (countMatches [1, 2, 3] [2, 2, 1])).2 :=
  (countMatches_total_symm [2, 2, 1] [1, 2, 3] (by decide) (by decide)).1

/-- C5: for all `g`, `s` of length `SEQL`, with `E` and `A` the exact and
approximate counters of `countMatches` at its `return` and `code = E * 10 + A`
the value returned, the decoding of `showMatches` and `main`
(`approx = code % 10; exact = (code - approx) / 10`) gives back `A` and `E`. -/
theorem showMatches_decodes_countMatches (g s : List Int) (hg : g.length = SEQL)
    (hs : s.length = SEQL) :
    countMatches g s
        = (countMatchesState g s).exactMatches * 10
          + (countMatchesState g s).approximateMatches ∧
      (showMatches (countMatches g s)).2 = (countMatchesState g s).approximateMatches ∧
      (showMatches (countMatches g s)).1 = (countMatchesState g s).exactMatches := by
  rw [showMatches_countMatches g s hg hs]
  exact ⟨rfl, rfl, rfl⟩

theorem showMatches_decodes_countMatches_witness :
    countMatches [1, 2, 1] [1, 1, 2]
        = (countMatchesState [1, 2, 1] [1, 1, 2]).exactMatches * 10
          + (countMatchesState [1, 2, 1] [1, 1, 2]).approximateMatches ∧
      (showMatches (countMatches [1, 2, 1] [1, 1, 2])).2
        = (countMatchesState [1, 2, 1] [1, 1, 2]).approximateMatches ∧
      (showMatches (countMatches [1, 2, 1] [1, 1, 2])).1
        = (countMatchesState [1, 2, 1] [1, 1, 2]).exactMatches :=
  showMatches_decodes_countMatches [1, 2, 1] [1, 1, 2] (by decide) (by decide)

/-! ## The LCD cursor -/

/-- C6, the behaviour of the code where it departs from the claim: on the 16x2
display with the cursor at `(0, 0)`, `lcdPosition(lcd, 16, 0)` (`x = cols`) is
not ignored: it sends the command byte `0x90` and sets `cx = 16`; likewise
`lcdPosition(lcd, 0, 2)` (`y = rows`) sends `0xC0` and sets `cy = 2`. -/
theorem lcdPosition_at_cols_or_rows_not_ignored :
    lcdPosition ⟨lcd16x2, []⟩ 16 0
        = ⟨{ lcd16x2 with cx := 16, cy := 0 }, lcdPutCommand lcd16x2 0x90 []⟩ ∧
      lcdPosition ⟨lcd16x2, []⟩ 16 0 ≠ ⟨lcd16x2, []⟩ ∧
      lcdPosition ⟨lcd16x2, []⟩ 0 2
        = ⟨{ lcd16x2 with cx := 0, cy := 2 }, lcdPutCommand lcd16x2 0xC0 []⟩ ∧
      lcdPosition ⟨lcd16x2, []⟩ 0 2 ≠ ⟨lcd16x2, []⟩ := by
  refine ⟨by decide, by decide, by decide, by decide⟩

/-- C7, the behaviour of the code where it departs from the claim: on the 16x2
display the cursor `(0, 0)` is within bounds, and after `lcdPosition(lcd, 16, 1)`
or `lcdPosition(lcd, 3, 2)` the cursor is `(16, 1)`, respectively `(3, 2)`,
which is out of bounds. -/
theorem lcdPosition_breaks_cursor_bounds :
    cursorInBounds lcd16x2 ∧
      ¬ cursorInBounds (lcdPosition ⟨lcd16x2, []⟩ 16 1).lcd ∧
      ((lcdPosition ⟨lcd16x2, []⟩ 16 1).lcd.cx = 16 ∧
        (lcdPosition ⟨lcd16x2, []⟩ 16 1).lcd.cy = 1) ∧
      ¬ cursorInBounds (lcdPosition ⟨lcd16x2, []⟩ 3 2).lcd ∧
      ((lcdPosition ⟨lcd16x2, []⟩ 3 2).lcd.cx = 3 ∧
        (lcdPosition ⟨lcd16x2, []⟩ 3 2).lcd.cy = 2) := by
  refine ⟨by decide, by decide, by decide, by decide, by decide⟩

/-- C8: from a cursor within bounds, writing a string of `n` non-zero
characters with `lcdPuts` (and one character with `lcdPutchar`) leaves the
cursor at `((cx + n) mod cols, (cy + (cx + n) div cols) mod rows)` and changes
nothing else in the LCD record; the sixteen characters of `Press the button`
written from `(0, 0)` on the 16x2 display leave the cursor at `(0, 1)`; and
`lcdPutchar` sends, after the data byte, the position command
`0x80 | (0x40 if the new cy > 0)` exactly when the column wraps. -/
theorem lcdPuts_cursor_wrap (w : LcdWorld) (h : cursorInBounds w.lcd) :
    (∀ str : List Nat, (∀ c ∈ str, c ≠ 0) →
      (lcdPuts w str).lcd =
        { w.lcd with
          cx := (w.lcd.cx + (str.length : Int)) % w.lcd.cols
          cy := (w.lcd.cy + (w.lcd.cx + (str.length : Int)) / w.lcd.cols) % w.lcd.rows }) ∧
    (∀ data : Nat,
      (lcdPutchar w data).lcd =
        { w.lcd with
          cx := (w.lcd.cx + 1) % w.lcd.cols
          cy := (w.lcd.cy + (w.lcd.cx + 1) / w.lcd.cols) % w.lcd.rows }) ∧
    (∀ data : Nat,
      (lcdPutchar w data).out =
        if w.lcd.cx + 1 = w.lcd.cols then
          lcdPutCommand (lcdPutchar w data).lcd
            (0x80 ||| (if (lcdPutchar w data).lcd.cy > 0 then 0x40 else 0))
            (sendDataCmd w.lcd data (digitalWrite w.out w.lcd.rsPin 1))
        else sendDataCmd w.lcd data (digitalWrite w.out w.lcd.rsPin 1)) ∧
    (pressTheButton.length = 16 ∧
      (lcdPuts ⟨lcd16x2, []⟩ pressTheButton).lcd.cx = 0 ∧
      (lcdPuts ⟨lcd16x2, []⟩ pressTheButton).lcd.cy = 1) := by
  refine ⟨fun str hstr => lcdPuts_cursor str w h hstr,
    fun data => lcdPutchar_cursor w data h, fun data => ?_, ?_⟩
  · unfold lcdPutchar
    by_cases hw : w.lcd.cx + 1 = w.lcd.cols
    · simp only [if_pos hw]
      congr 1
      split_ifs <;> rfl
    · simp only [if_neg hw]
  · have hb : cursorInBounds (⟨lcd16x2, []⟩ : LcdWorld).lcd := by decide
    have hnz : ∀ c ∈ pressTheButton, c ≠ 0 := by decide
    rw [lcdPuts_cursor pressTheButton ⟨lcd16x2, []⟩ hb hnz]
    decide

theorem lcdPuts_cursor_wrap_witness :
    (lcdPuts ⟨{ lcd16x2 with cx := 14, cy := 1 }, []⟩ [72, 105, 33]).lcd
      = { lcd16x2 with cx := 1, cy := 0 } := by
  have h := (lcdPuts_cursor_wrap ⟨{ lcd16x2 with cx := 14, cy := 1 }, []⟩
    (by decide)).1 [72, 105, 33] (by decide)
  rw [h]
  decide

/-! ## Rounds and turns -/

/-- C9: the round loop of `main`, started with `found = 0`, `attempts = 0` and
driven by an arbitrary sequence of scores, stops (six tests of the loop
condition always suffice) after at most five rounds, with `attempts` equal to
the number of rounds played: either with `found = 1` right after the first
round whose decoded exact count is `SEQL`, or, when none of the first five
rounds has that count, after exactly five rounds with `found = 0`. One pass of
the loop body taken with `0 ≤ attempts < 5` leaves `attempts` in `0..5`. -/
theorem roundLoop_at_most_five_rounds (score : Nat → Int) (extra : Nat) :
    (∃ st rounds, roundLoop score (extra + 6) 0 RoundState.init = some (st, rounds) ∧
      rounds ≤ 5 ∧ st.attempts = (rounds : Int) ∧
      ((st.found = 1 ∧ 1 ≤ rounds ∧ (showMatches (score (rounds - 1))).1 = (SEQL : Int) ∧
          ∀ k, k < rounds - 1 → (showMatches (score k)).1 ≠ (SEQL : Int)) ∨
        (st.found = 0 ∧ rounds = 5 ∧
          ∀ k, k < 5 → (showMatches (score k)).1 ≠ (SEQL : Int)))) ∧
    (∀ (st : RoundState) (sc : Int), 0 ≤ st.attempts → st.attempts < 5 →
      0 ≤ (roundBody st sc).1.attempts ∧ (roundBody st sc).1.attempts ≤ 5 ∧
      (roundBody st sc).1.attempts = st.attempts + 1) := by
  constructor
  · obtain ⟨st, rounds, e, _, h2, h3, h4⟩ :=
      roundLoop_spec score (extra + 6) 0 RoundState.init rfl rfl (by omega) (by omega)
    have hS : ((SEQL : Nat) : Int) = 3 := rfl
    refine ⟨st, rounds, e, h2, h3, ?_⟩
    rw [hS]
    rcases h4 with ⟨a, b, c, d⟩ | ⟨a, b, c⟩
    · exact Or.inl ⟨a, by omega, c, fun k hk => d k (Nat.zero_le k) hk⟩
    · exact Or.inr ⟨a, b, fun k hk => c k (Nat.zero_le k) hk⟩
  · intro st sc h0 h5
    have hatt : (roundBody st sc).1.attempts = st.attempts + 1 := by
      unfold roundBody
      simp only []
      split_ifs <;> rfl
    rw [hatt]
    omega

theorem roundLoop_at_most_five_rounds_witness :
    roundLoop (fun r => if r = 2 then 30 else 12) 6 0 RoundState.init
        = some ({ found := 1, attempts := 3 }, 3) ∧
      roundLoop (fun _ => 12) 6 0 RoundState.init = some ({ found := 0, attempts := 5 }, 5) ∧
      (0 ≤ (roundBody { found := 0, attempts := 4 } 12).1.attempts ∧
        (roundBody { found := 0, attempts := 4 } 12).1.attempts ≤ 5 ∧
        (roundBody { found := 0, attempts := 4 } 12).1.attempts = 4 + 1) :=
  ⟨by decide, by decide,
    (roundLoop_at_most_five_rounds (fun _ => 12) 0).2 { found := 0, attempts := 4 } 12
      (by decide) (by decide)⟩

/-- C10: whenever the button-capture loop ends, whatever the values of the
calls of `waitForButton` and of `time`, the press count it yields lies in
`[0, 3]` and is the number of polls made that yielded `1` (so it grew by at
most one per poll), and it is `3` only if the last poll made was a press (the
loop left at once); the loop does end as soon as some reading of the clock is
not before `endTime`; and one pass of the loop body from a count in `[0, 3)`
raises the count by at most one, to at most `3`, and leaves the loop exactly
when the count is `3`. -/
theorem capture_count_in_range (time : Nat → Int) (button : Nat → Int) :
    (∀ (fuel : Nat) (count : Int) (polls : Nat),
      capture time button fuel = some (count, polls) →
      0 ≤ count ∧ count ≤ 3 ∧ count = (pressesIn button polls : Int) ∧
        (count = 3 → 1 ≤ polls ∧ button (polls - 1) = 1)) ∧
    ((∃ j, ¬ time (j + 1) < time 0 + 5) → ∃ fuel res, capture time button fuel = some res) ∧
    (∀ (count b : Int), 0 ≤ count → count < 3 →
      count ≤ (captureBody count b).1 ∧ (captureBody count b).1 ≤ count + 1 ∧
      (captureBody count b).1 ≤ 3 ∧
      ((captureBody count b).2 = true ↔ (captureBody count b).1 = 3)) := by
  refine ⟨fun fuel count polls h => ?_, fun ⟨j, hj⟩ => ?_, fun count b h0 h3 => ?_⟩
  · obtain ⟨r1, r2, _, r4, r5⟩ :=
      captureLoop_spec time button (time 0 + 5) fuel 0 0 (count, polls) h (le_refl _)
        (by omega) rfl
    exact ⟨r1, r2, r4, fun e => ⟨by have := (r5 e).1; omega, (r5 e).2⟩⟩
  · obtain ⟨res, hres⟩ := captureLoop_ends time button (time 0 + 5) j 0 0
      (by simpa using hj)
    exact ⟨j + 1, res, hres⟩
  · obtain ⟨b1, b2⟩ := captureBody_spec count b h0 h3
    refine ⟨?_, ?_, ?_, b2⟩
    · rw [b1]
      split_ifs <;> omega
    · rw [b1]
      split_ifs <;> omega
    · rw [b1]
      split_ifs <;> omega

theorem capture_count_in_range_witness :
    capture (fun k => (k : Int)) (fun k => if k % 2 = 0 then 1 else 0) 10 = some (2, 4) ∧
      ((0 : Int) ≤ 2 ∧ (2 : Int) ≤ 3 ∧
        (2 : Int) = (pressesIn (fun k => if k % 2 = 0 then 1 else 0) 4 : Int) ∧
        ((2 : Int) = 3 → 1 ≤ 4 ∧ (fun k : Nat => if k % 2 = 0 then (1 : Int) else 0) (4 - 1) = 1)) :=
  ⟨by decide,
    (capture_count_in_range (fun k => (k : Int)) (fun k => if k % 2 = 0 then 1 else 0)).1
      10 2 4 (by decide)⟩

/-! ## Symmetry of the score, winning, and `readSeq` -/

theorem exactCount_eq_SEQL_iff (g s : List Int) :
    exactCount g s = SEQL ↔ ∀ i, i < SEQL → g.getD i 0 = s.getD i 0 := by
  unfold exactCount
  have hlen : (List.range SEQL).length = SEQL := List.length_range SEQL
  constructor
  · intro h i hi
    have h' := (List.filter_length_eq_length
      (p := fun i => decide (g.getD i 0 = s.getD i 0))).mp (h.trans hlen.symm) i
      (List.mem_range.mpr hi)
    exact of_decide_eq_true h'
  · intro h
    rw [(List.filter_length_eq_length
      (p := fun i => decide (g.getD i 0 = s.getD i 0))).mpr
        (fun i hi => decide_eq_true (h i (List.mem_range.mp hi))), hlen]

/-- C15: for all digits `d0`, `d1`, `d2` in `0..9` and every buffer of `SEQL`
cells (a non-`NULL` `seq`), `readSeq(seq, 100*d0 + 10*d1 + d2)` leaves
`seq[0] = d0`, `seq[1] = d1`, `seq[2] = d2`, so that
`100*seq[0] + 10*seq[1] + seq[2]` is the number read. -/
theorem readSeq_decodes_digits (cells : List Int) (d0 d1 d2 : Int)
    (hlen : cells.length = SEQL)
    (h0 : 0 ≤ d0 ∧ d0 ≤ 9) (h1 : 0 ≤ d1 ∧ d1 ≤ 9) (h2 : 0 ≤ d2 ∧ d2 ≤ 9) :
    readSeq (some cells) (100 * d0 + 10 * d1 + d2) = some [d0, d1, d2] ∧
      (∀ seq, readSeq (some cells) (100 * d0 + 10 * d1 + d2) = some seq →
        seq.getD 0 0 = d0 ∧ seq.getD 1 0 = d1 ∧ seq.getD 2 0 = d2 ∧
        100 * seq.getD 0 0 + 10 * seq.getD 1 0 + seq.getD 2 0
          = 100 * d0 + 10 * d1 + d2) := by
  have hfirst : Int.tdiv (100 * d0 + 10 * d1 + d2) 100 = d0 := by
    rw [Int.tdiv_eq_ediv (by omega) (by omega)]
    omega
  have hmod : Int.tmod (100 * d0 + 10 * d1 + d2) 100 = 10 * d1 + d2 := by
    rw [Int.tmod_eq_emod (by omega) (by omega)]
    omega
  have hsecond : Int.tdiv (10 * d1 + d2) 10 = d1 := by
    rw [Int.tdiv_eq_ediv (by omega) (by omega)]
    omega
  have hthird : Int.tmod (10 * d1 + d2) 10 = d2 := by
    rw [Int.tmod_eq_emod (by omega) (by omega)]
    omega
  have hread : readSeq (some cells) (100 * d0 + 10 * d1 + d2) = some [d0, d1, d2] := by
    unfold readSeq
    simp only [hfirst, hmod, hsecond, hthird]
    match cells, hlen with
    | [a, b, c], _ => rfl
  refine ⟨hread, fun seq hseq => ?_⟩
  rw [hread] at hseq
  simp only [Option.some.injEq] at hseq
  subst hseq
  simp

theorem readSeq_decodes_digits_witness :
    readSeq (some [0, 0, 0]) (100 * 2 + 10 * 3 + 1) = some [2, 3, 1] :=
  (readSeq_decodes_digits [0, 0, 0] 2 3 1 (by decide) (by decide) (by decide) (by decide)).1

/-- C16: for every pair of integer sequences `g`, `s` of length `SEQL`,
`countMatches g s = countMatches s g`, and the exact counter and the
approximate counter are each the same whichever sequence is the guess. -/
theorem countMatches_symm (g s : List Int) (hg : g.length = SEQL) (hs : s.length = SEQL) :
    countMatches g s = countMatches s g ∧
      (countMatchesState g s).exactMatches = (countMatchesState s g).exactMatches ∧
      (countMatchesState g s).approximateMatches
        = (countMatchesState s g).approximateMatches ∧
      showMatches (countMatches g s) = showMatches (countMatches s g) := by
  obtain ⟨h1, h2, _⟩ := countMatchesState_spec g s hg hs
  obtain ⟨k1, k2, _⟩ := countMatchesState_spec s g hs hg
  rw [commonCount_comm s g] at k2
  rw [exactCount_comm s g] at k1 k2
  have hE : (countMatchesState g s).exactMatches = (countMatchesState s g).exactMatches := by
    rw [h1, k1]
  have hA : (countMatchesState g s).approximateMatches
      = (countMatchesState s g).approximateMatches := by omega
  have hC : countMatches g s = countMatches s g := by
    unfold countMatches
    rw [hE, hA]
  exact ⟨hC, hE, hA, by rw [hC]⟩

theorem countMatches_symm_witness :
    countMatches [1, 2, 1] [1, 1, 2] = countMatches [1, 1, 2] [1, 2, 1] :=
  (countMatches_symm [1, 2, 1] [1, 1, 2] (by decide) (by decide)).1

/-- C17: for every guess `g` and secret `s` of length `SEQL`, the exact count
that `main` decodes from `countMatches g s` is `3`, the condition under which
it sets `found = 1`, if and only if `g[i] = s[i]` for every index `i` below
`SEQL`, that is, if and only if the guess is the secret. -/
theorem exact_three_iff_guess_is_secret (g s : List Int) (hg : g.length = SEQL)
    (hs : s.length = SEQL) :
    ((showMatches (countMatches g s)).1 = 3 ↔ ∀ i, i < SEQL → g.getD i 0 = s.getD i 0) ∧
      ((showMatches (countMatches g s)).1 = 3 ↔ g = s) ∧
      ((roundBody RoundState.init (countMatches g s)).1.found = 1 ↔ g = s) := by
  obtain ⟨h1, _, _⟩ := countMatchesState_spec g s hg hs
  have hdec : (showMatches (countMatches g s)).1 = (exactCount g s : Int) := by
    rw [showMatches_countMatches g s hg hs, h1]
  have hS : SEQL = 3 := rfl
  have hidx : (showMatches (countMatches g s)).1 = 3 ↔
      ∀ i, i < SEQL → g.getD i 0 = s.getD i 0 := by
    rw [hdec, ← exactCount_eq_SEQL_iff, hS]
    constructor
    · intro h
      exact_mod_cast h
    · intro h
      exact_mod_cast h
  have hext : (∀ i, i < SEQL → g.getD i 0 = s.getD i 0) ↔ g = s := by
    constructor
    · intro h
      match g, s, hg, hs, h with
      | [a, b, c], [d, e, f], _, _, h =>
        have e0 := h 0 (by decide)
        have e1 := h 1 (by decide)
        have e2 := h 2 (by decide)
        simp at e0 e1 e2
        rw [e0, e1, e2]
    · intro h i _
      rw [h]
  refine ⟨hidx, hidx.trans hext, ?_⟩
  rw [← hext, ← hidx]
  unfold roundBody showMatches RoundState.init
  simp only []
  split_ifs with hc
  · exact ⟨fun _ => hc, fun _ => rfl⟩
  · constructor
    · intro h
      exact absurd h (by decide)
    · intro h
      exact absurd h hc

theorem exact_three_iff_guess_is_secret_witness :
    (showMatches (countMatches [2, 3, 1] [2, 3, 1])).1 = 3 ↔ [2, 3, 1] = ([2, 3, 1] : List Int) :=
  (exact_three_iff_guess_is_secret [2, 3, 1] [2, 3, 1] (by decide) (by decide)).2.1

/-! ## The byte protocol of the LCD -/

theorem sendBits_four (lcd : lcdDataStruct) (d : Nat) (out : List GpioEvent) :
    sendBits lcd 4 d out = out ++ nibbleTrace lcd d := by
  have hr : List.range 4 = [0, 1, 2, 3] := by decide
  unfold sendBits nibbleTrace bitOf digitalWrite
  rw [hr]
  simp only [List.foldl_cons, List.foldl_nil, Nat.and_one_is_mod, Nat.shiftRight_eq_div_pow,
    List.append_assoc, List.singleton_append, List.cons_append, List.nil_append, pow_zero,
    pow_one, Nat.div_one]
  have e2 : d / 2 / 2 = d / 2 ^ 2 := by
    have : (2 : Nat) ^ 2 = 4 := by norm_num
    omega
  have e3 : d / 2 ^ 2 / 2 = d / 2 ^ 3 := by
    have h4 : (2 : Nat) ^ 2 = 4 := by norm_num
    have h8 : (2 : Nat) ^ 3 = 8 := by norm_num
    omega
  rw [e2, e3]

theorem strobe_eq (lcd : lcdDataStruct) (out : List GpioEvent) :
    strobe lcd out = out ++ strobeTrace lcd := by
  unfold strobe strobeTrace digitalWrite delayMicroseconds
  simp

theorem sendDataCmd_four (lcd : lcdDataStruct) (b : Nat) (out : List GpioEvent)
    (hbits : lcd.bits = 4) (hb : b < 256) (rs : Int) :
    sendDataCmd lcd b (digitalWrite out lcd.rsPin rs) = out ++ byteTrace lcd rs b := by
  have hhi : (b >>> 4) &&& 0x0F = b / 16 := by
    have h15 : (0x0F : Nat) = 2 ^ 4 - 1 := by norm_num
    rw [h15, Nat.and_pow_two_sub_one_eq_mod, Nat.shiftRight_eq_div_pow]
    have : (2 : Nat) ^ 4 = 16 := by norm_num
    omega
  have hlo : b &&& 0x0F = b % 16 := by
    have h15 : (0x0F : Nat) = 2 ^ 4 - 1 := by norm_num
    rw [h15, Nat.and_pow_two_sub_one_eq_mod]
  unfold sendDataCmd
  rw [if_pos hbits]
  simp only [hhi, hlo, sendBits_four, strobe_eq]
  unfold byteTrace digitalWrite
  simp


theorem nibbleOfBits_bitOf (n : Nat) (hn : n < 16) :
    nibbleOfBits (bitOf n 0) (bitOf n 1) (bitOf n 2) (bitOf n 3) = (n : Int) := by
  unfold nibbleOfBits bitOf
  have h2 : (2 : Nat) ^ 2 = 4 := by norm_num
  have h3 : (2 : Nat) ^ 3 = 8 := by norm_num
  rw [pow_zero, pow_one, h2, h3, Nat.div_one]
  omega

theorem position_byte (x y : Int) (hx0 : 0 ≤ x) (hx : x < 16) (hy0 : 0 ≤ y) (hy : y < 2) :
    toUChar (x + ((LCD_DGRAM ||| (if y > 0 then 0x40 else 0x00) : Nat) : Int))
      = x.toNat ||| (0x80 ||| (if y > 0 then 0x40 else 0x00)) := by
  interval_cases x <;> interval_cases y <;> decide

/-- C11: in 4-bit mode and for every byte `b`, `lcdPutCommand(b)` appends to
the trace exactly: register-select pin := 0; data pins 0..3 := bits 0..3 of the
high nibble `(b >> 4) & 0xF`; strobe HIGH, 50 microseconds, strobe LOW, 50
microseconds; data pins 0..3 := bits 0..3 of the low nibble `b & 0xF`; the same
strobe pulse; a delay of 2 ms. `lcdPutchar(b)` appends the same events with
register-select pin := 1 and without the delay (followed, only when the column
wraps, by the position command). The bits written before each strobe make up
the nibble, and `high * 16 + low = b`. -/
theorem lcd_byte_trace (w : LcdWorld) (b : Nat) (hbits : w.lcd.bits = 4) (hb : b < 256) :
    lcdPutCommand w.lcd b w.out = w.out ++ byteTrace w.lcd 0 b ++ [GpioEvent.delay 2] ∧
    (lcdPutchar w b).out =
      (if w.lcd.cx + 1 = w.lcd.cols then
        lcdPutCommand (lcdPutchar w b).lcd
          (0x80 ||| (if (lcdPutchar w b).lcd.cy > 0 then 0x40 else 0))
          (w.out ++ byteTrace w.lcd 1 b)
      else w.out ++ byteTrace w.lcd 1 b) ∧
    (∀ rs : Int, byteTrace w.lcd rs b =
      [GpioEvent.digitalWrite w.lcd.rsPin rs,
       GpioEvent.digitalWrite (w.lcd.dataPins.getD 0 0) (bitOf ((b >>> 4) &&& 0x0F) 0),
       GpioEvent.digitalWrite (w.lcd.dataPins.getD 1 0) (bitOf ((b >>> 4) &&& 0x0F) 1),
       GpioEvent.digitalWrite (w.lcd.dataPins.getD 2 0) (bitOf ((b >>> 4) &&& 0x0F) 2),
       GpioEvent.digitalWrite (w.lcd.dataPins.getD 3 0) (bitOf ((b >>> 4) &&& 0x0F) 3),
       GpioEvent.digitalWrite w.lcd.strbPin 1, GpioEvent.delayMicroseconds 50,
       GpioEvent.digitalWrite w.lcd.strbPin 0, GpioEvent.delayMicroseconds 50,
       GpioEvent.digitalWrite (w.lcd.dataPins.getD 0 0) (bitOf (b &&& 0x0F) 0),
       GpioEvent.digitalWrite (w.lcd.dataPins.getD 1 0) (bitOf (b &&& 0x0F) 1),
       GpioEvent.digitalWrite (w.lcd.dataPins.getD 2 0) (bitOf (b &&& 0x0F) 2),
       GpioEvent.digitalWrite (w.lcd.dataPins.getD 3 0) (bitOf (b &&& 0x0F) 3),
       GpioEvent.digitalWrite w.lcd.strbPin 1, GpioEvent.delayMicroseconds 50,
       GpioEvent.digitalWrite w.lcd.strbPin 0, GpioEvent.delayMicroseconds 50]) ∧
    nibbleOfBits (bitOf ((b >>> 4) &&& 0x0F) 0) (bitOf ((b >>> 4) &&& 0x0F) 1)
        (bitOf ((b >>> 4) &&& 0x0F) 2) (bitOf ((b >>> 4) &&& 0x0F) 3)
      = (((b >>> 4) &&& 0x0F : Nat) : Int) ∧
    nibbleOfBits (bitOf (b &&& 0x0F) 0) (bitOf (b &&& 0x0F) 1)
        (bitOf (b &&& 0x0F) 2) (bitOf (b &&& 0x0F) 3)
      = ((b &&& 0x0F : Nat) : Int) ∧
    ((b >>> 4) &&& 0x0F) * 16 + (b &&& 0x0F) = b := by
  have hhi : (b >>> 4) &&& 0x0F = b / 16 := by
    have h15 : (0x0F : Nat) = 2 ^ 4 - 1 := by norm_num
    rw [h15, Nat.and_pow_two_sub_one_eq_mod, Nat.shiftRight_eq_div_pow]
    have : (2 : Nat) ^ 4 = 16 := by norm_num
    omega
  have hlo : b &&& 0x0F = b % 16 := by
    have h15 : (0x0F : Nat) = 2 ^ 4 - 1 := by norm_num
    rw [h15, Nat.and_pow_two_sub_one_eq_mod]
  rw [hhi, hlo]
  refine ⟨?_, ?_, fun rs => rfl, nibbleOfBits_bitOf _ (by omega),
    nibbleOfBits_bitOf _ (by omega), by omega⟩
  · unfold lcdPutCommand
    simp only [sendDataCmd_four w.lcd b w.out hbits hb 0]
    rfl
  · unfold lcdPutchar
    simp only [sendDataCmd_four w.lcd b w.out hbits hb 1]
    by_cases hw : w.lcd.cx + 1 = w.lcd.cols
    · simp only [if_pos hw]
      congr 1
      split_ifs <;> rfl
    · simp only [if_neg hw]

theorem lcd_byte_trace_witness :
    lcdPutCommand lcd16x2 0xA5 [] = [] ++ byteTrace lcd16x2 0 0xA5 ++ [GpioEvent.delay 2] ∧
      (0xA5 >>> 4 &&& 0x0F) * 16 + (0xA5 &&& 0x0F) = 0xA5 :=
  ⟨(lcd_byte_trace ⟨lcd16x2, []⟩ 0xA5 (by decide) (by decide)).1,
    (lcd_byte_trace ⟨lcd16x2, []⟩ 0xA5 (by decide) (by decide)).2.2.2.2.2⟩

/-- C13: on the 16x2 display and for every position with `0 ≤ x < cols` and
`0 ≤ y < rows`, `lcdPosition` sends as a command exactly the byte
`x | (0x80 | (0x40 if y > 0 else 0))`, which is what the sum
`x + (LCD_DGRAM | row offset)` of the code gives as an `unsigned char`, and
afterwards the cursor is `(cx, cy) = (x, y)`. -/
theorem lcdPosition_in_bounds (w : LcdWorld) (x y : Int) (hcols : w.lcd.cols = 16)
    (hrows : w.lcd.rows = 2) (hx0 : 0 ≤ x) (hx : x < w.lcd.cols) (hy0 : 0 ≤ y)
    (hy : y < w.lcd.rows) :
    lcdPosition w x y =
        { lcd := { w.lcd with cx := x, cy := y }
          out := lcdPutCommand w.lcd
            (x.toNat ||| (0x80 ||| (if y > 0 then 0x40 else 0x00))) w.out } ∧
      toUChar (x + ((LCD_DGRAM ||| (if y > 0 then 0x40 else 0x00) : Nat) : Int))
        = x.toNat ||| (0x80 ||| (if y > 0 then 0x40 else 0x00)) ∧
      (lcdPosition w x y).lcd.cx = x ∧ (lcdPosition w x y).lcd.cy = y := by
  have hbyte := position_byte x y hx0 (by omega) hy0 (by omega)
  have h1 : ¬ (x > w.lcd.cols ∨ x < 0) := by omega
  have h2 : ¬ (y > w.lcd.rows ∨ y < 0) := by omega
  have hpos : lcdPosition w x y =
      { lcd := { w.lcd with cx := x, cy := y }
        out := lcdPutCommand w.lcd
          (x.toNat ||| (0x80 ||| (if y > 0 then 0x40 else 0x00))) w.out } := by
    unfold lcdPosition
    rw [if_neg h1, if_neg h2]
    simp only [hbyte]
  refine ⟨hpos, hbyte, ?_, ?_⟩
  · rw [hpos]
  · rw [hpos]

theorem lcdPosition_in_bounds_witness :
    lcdPosition ⟨lcd16x2, []⟩ 5 1 =
      { lcd := { lcd16x2 with cx := 5, cy := 1 }
        out := lcdPutCommand lcd16x2 0xC5 [] } :=
  (lcdPosition_in_bounds ⟨lcd16x2, []⟩ 5 1 (by decide) (by decide) (by decide) (by decide)
    (by decide) (by decide)).1

/-! ## The function-select field written by `pinMode` -/

/-- Bit `i` of a word in which the 3-bit field at `o` was cleared and then set
to `m`. -/
theorem testBit_field_update (old o m i : Nat) (hold : old < 2 ^ 32) (ho : o + 3 ≤ 32)
    (hm : m < 2 ^ 3) :
    ((old &&& ((2 ^ 32 - 1) ^^^ ((2 ^ 3 - 1) <<< o))) ||| (m <<< o)).testBit i
      = if o ≤ i ∧ i < o + 3 then m.testBit (i - o) else old.testBit i := by
  simp only [Nat.testBit_or, Nat.testBit_and, Nat.testBit_xor, Nat.testBit_shiftLeft,
    Nat.testBit_two_pow_sub_one]
  by_cases h1 : o ≤ i
  · by_cases h2 : i < o + 3
    · have h3 : i - o < 3 := by omega
      have h4 : i < 32 := by omega
      simp [h1, h2, h3, h4]
    · have h3 : ¬ i - o < 3 := by omega
      have hmbit : m.testBit (i - o) = false :=
        Nat.testBit_lt_two_pow
          (lt_of_lt_of_le hm (Nat.pow_le_pow_right (by norm_num) (by omega)))
      by_cases h4 : i < 32
      · simp [h1, h2, h3, h4, hmbit]
      · have hobit : old.testBit i = false :=
          Nat.testBit_lt_two_pow
            (lt_of_lt_of_le hold (Nat.pow_le_pow_right (by norm_num) (by omega)))
        simp [h1, h2, h3, h4, hmbit, hobit]
  · have h2 : i < 32 := by omega
    simp [h1, h2]

/-- The word that `pinMode` stores, for a non-negative pin and a mode below 8:
all conversions to 32 bits are the identity. -/
theorem pinMode_word (gpio : Int → Nat) (pin mode : Int) (hpin : 0 ≤ pin) (hm0 : 0 ≤ mode)
    (hm : mode < 8) :
    (Int.tmod pin 10 * 3).toNat + 3 ≤ 32 ∧
    pinMode gpio pin mode (Int.tdiv pin 10)
      = (gpio (Int.tdiv pin 10) &&&
          ((2 ^ 32 - 1) ^^^ ((2 ^ 3 - 1) <<< (Int.tmod pin 10 * 3).toNat)))
        ||| (mode.toNat <<< (Int.tmod pin 10 * 3).toNat) := by
  have hmod : Int.tmod pin 10 = pin % 10 := Int.tmod_eq_emod hpin (by omega)
  have ho : (Int.tmod pin 10 * 3).toNat + 3 ≤ 32 := by
    rw [hmod]
    omega
  refine ⟨ho, ?_⟩
  unfold pinMode
  simp only [Function.update_same, bic, orr]
  generalize (Int.tmod pin 10 * 3).toNat = o at ho ⊢
  have hpow : (2 : Nat) ^ o ≤ 2 ^ 29 := Nat.pow_le_pow_right (by norm_num) (by omega)
  have h29 : (2 : Nat) ^ 29 = 536870912 := by norm_num
  have h32 : (2 : Int) ^ 32 = 4294967296 := by norm_num
  have hmask : toUInt32 ((7 : Int) * 2 ^ o) = (2 ^ 3 - 1) <<< o := by
    unfold toUInt32
    rw [Nat.shiftLeft_eq]
    have hc : ((7 : Int) * 2 ^ o) = (((2 ^ 3 - 1) * 2 ^ o : Nat) : Int) := by
      push_cast
      norm_num
    rw [hc, h32, Int.emod_eq_of_lt (by positivity) (by norm_num; omega), Int.toNat_natCast]
  have hmode : toUInt32 (mode * 2 ^ o) = mode.toNat <<< o := by
    unfold toUInt32
    rw [Nat.shiftLeft_eq]
    obtain ⟨m, rfl⟩ := Int.eq_ofNat_of_zero_le hm0
    have hm' : m < 8 := by omega
    have hc : ((m : Int) * 2 ^ o) = ((m * 2 ^ o : Nat) : Int) := by
      push_cast
      rfl
    have hlt : m * 2 ^ o < 4294967296 := by
      calc m * 2 ^ o ≤ 7 * 2 ^ 29 := Nat.mul_le_mul (by omega) hpow
        _ < 4294967296 := by norm_num
    rw [hc, h32, Int.emod_eq_of_lt (by positivity) (by exact_mod_cast hlt), Int.toNat_natCast,
      Int.toNat_natCast]
  rw [hmask, hmode]
  norm_num


/-- C12: for a pin number `0 ≤ pin`, a mode `INPUT = 0` or `OUTPUT = 1` and a
register block whose word `pin / 10` is a 32-bit value, `pinMode` stores into
word `pin / 10` the value `(old & ~(7 << (pin % 10) * 3)) | (mode << (pin % 10) * 3)`
modulo `2^32`; the 3-bit field of the pin then reads back as `mode`, every bit
of the word outside that field is as before, and every other word of the block
is untouched. -/
theorem pinMode_read_modify_write (gpio : Int → Nat) (pin mode : Int) (hpin : 0 ≤ pin)
    (hmode : mode = 0 ∨ mode = 1) (hword : gpio (pin / 10) < 2 ^ 32) :
    pinMode gpio pin mode (pin / 10)
        = ((gpio (pin / 10) &&& (0xFFFFFFFF ^^^ (7 <<< ((pin % 10) * 3).toNat)))
            ||| (mode.toNat <<< ((pin % 10) * 3).toNat)) % 2 ^ 32 ∧
      (pinMode gpio pin mode (pin / 10) >>> ((pin % 10) * 3).toNat) &&& 7 = mode.toNat ∧
      (∀ i, ¬ (((pin % 10) * 3).toNat ≤ i ∧ i < ((pin % 10) * 3).toNat + 3) →
        (pinMode gpio pin mode (pin / 10)).testBit i = (gpio (pin / 10)).testBit i) ∧
      (∀ k, k ≠ pin / 10 → pinMode gpio pin mode k = gpio k) ∧
      pinMode gpio pin mode (pin / 10) < 2 ^ 32 := by
  have hdiv : Int.tdiv pin 10 = pin / 10 := Int.tdiv_eq_ediv hpin (by omega)
  have hmod : Int.tmod pin 10 = pin % 10 := Int.tmod_eq_emod hpin (by omega)
  have hm0 : 0 ≤ mode := by omega
  have hm8 : mode < 8 := by omega
  obtain ⟨ho, hw⟩ := pinMode_word gpio pin mode hpin hm0 hm8
  rw [hdiv] at hw
  rw [hmod] at hw ho
  have hmn : mode.toNat < 2 ^ 3 := by
    have : mode.toNat < 8 := by omega
    simpa using this
  have hbit := fun i =>
    testBit_field_update (gpio (pin / 10)) ((pin % 10) * 3).toNat mode.toNat i hword ho hmn
  rw [← hw] at hbit
  have hlt : pinMode gpio pin mode (pin / 10) < 2 ^ 32 := by
    apply Nat.lt_pow_two_of_testBit
    intro i hi
    rw [hbit i, if_neg (by omega)]
    exact Nat.testBit_lt_two_pow
      (lt_of_lt_of_le hword (Nat.pow_le_pow_right (by norm_num) hi))
  refine ⟨?_, ?_, fun i hi => ?_, fun k hk => ?_, hlt⟩
  · have h7 : (7 : Nat) = 2 ^ 3 - 1 := by norm_num
    have hF : (0xFFFFFFFF : Nat) = 2 ^ 32 - 1 := by norm_num
    rw [h7, hF, ← hw, Nat.mod_eq_of_lt hlt]
  · apply Nat.eq_of_testBit_eq
    intro j
    have h7 : (7 : Nat) = 2 ^ 3 - 1 := by norm_num
    rw [h7, Nat.testBit_and, Nat.testBit_shiftRight, Nat.testBit_two_pow_sub_one, hbit]
    by_cases hj : j < 3
    · have hc : ((pin % 10) * 3).toNat ≤ ((pin % 10) * 3).toNat + j ∧
          ((pin % 10) * 3).toNat + j < ((pin % 10) * 3).toNat + 3 := by omega
      rw [if_pos hc, Nat.add_sub_cancel_left]
      simp [hj]
    · have hf : mode.toNat.testBit j = false :=
        Nat.testBit_lt_two_pow
          (lt_of_lt_of_le hmn (Nat.pow_le_pow_right (by norm_num) (by omega)))
      simp [hj, hf]
  · rw [hbit i, if_neg hi]
  · unfold pinMode
    rw [hdiv, Function.update_noteq hk]

theorem pinMode_read_modify_write_witness :
    (pinMode (fun _ => 0xFFFFFFFF) 25 1 (25 / 10) >>> (((25 : Int) % 10) * 3).toNat) &&& 7
      = (1 : Int).toNat :=
  (pinMode_read_modify_write (fun _ => 0xFFFFFFFF) 25 1 (by decide) (by decide)
    (by decide)).2.1

/-! ## The digits of a guess -/

theorem capture_spec (time : Nat → Int) (button : Nat → Int) (fuel : Nat) (count : Int)
    (polls : Nat) (h : capture time button fuel = some (count, polls)) :
    0 ≤ count ∧ count ≤ 3 ∧ count = (pressesIn button polls : Int) := by
  obtain ⟨r1, r2, _, r4, _⟩ :=
    captureLoop_spec time button (time 0 + 5) fuel 0 0 (count, polls) h (le_refl _)
      (by omega) rfl
  exact ⟨r1, r2, r4⟩

/-- The capture loop ends within `fuel` tests as soon as one of the first `fuel`
readings of the clock in the loop is not before `endTime`. -/
theorem captureLoop_ends_of_lt (time : Nat → Int) (button : Nat → Int) (endTime : Int) :
    ∀ (fuel d k : Nat) (count : Int), d < fuel → ¬ time (k + d + 1) < endTime →
      ∃ res, captureLoop time button endTime fuel k count = some res := by
  intro fuel
  induction fuel with
  | zero =>
    intro d k count hd
    omega
  | succ fuel ih =>
    intro d k count hd h
    by_cases ht : time (k + 1) < endTime
    · rcases hbody : captureBody count (button k) with ⟨c, brk⟩
      cases brk with
      | true =>
        refine ⟨(c, k + 1), ?_⟩
        simp only [captureLoop, if_pos ht, hbody]
      | false =>
        have hd0 : d ≠ 0 := by
          intro e
          rw [e, add_zero] at h
          exact h ht
        have h' : ¬ time (k + 1 + (d - 1) + 1) < endTime := by
          have e : k + 1 + (d - 1) + 1 = k + d + 1 := by omega
          rw [e]
          exact h
        obtain ⟨res, hres⟩ := ih (d - 1) (k + 1) c (by omega) h'
        refine ⟨res, ?_⟩
        rw [← hres]
        simp only [captureLoop, if_pos ht, hbody]
    · refine ⟨(count, k), ?_⟩
      simp only [captureLoop, if_neg ht]

theorem turnLoop_three (time : Nat → Nat → Int) (button : Nat → Nat → Int) (fuel : Nat)
    (attSeq : List Int) :
    turnLoop time button fuel 3 0 attSeq =
      (capture (time 1) (button 1) fuel).bind fun r1 =>
        (capture (time 2) (button 2) fuel).bind fun r2 =>
          (capture (time 3) (button 3) fuel).bind fun r3 =>
            some (((attSeq.set 0 r1.1).set 1 r2.1).set 2 r3.1) := by
  have e1 : ((0 : Int) + 1).toNat = 1 := by decide
  have e2 : ((0 : Int) + 1 + 1).toNat = 2 := by decide
  have e3 : ((0 : Int) + 1 + 1 + 1).toNat = 3 := by decide
  have f1 : ((0 : Int) + 1 - 1).toNat = 0 := by decide
  have f2 : ((0 : Int) + 1 + 1 - 1).toNat = 1 := by decide
  have f3 : ((0 : Int) + 1 + 1 + 1 - 1).toNat = 2 := by decide
  have n1 : ¬ ((0 : Int) + 1 = 3) := by decide
  have n2 : ¬ ((0 : Int) + 1 + 1 = 3) := by decide
  have n3 : (0 : Int) + 1 + 1 + 1 = 3 := by decide
  simp only [turnLoop, e1, e2, e3, f1, f2, f3, if_neg n1, if_neg n2, if_pos n3]
  rcases capture (time 1) (button 1) fuel with _ | ⟨c1, p1⟩
  · rfl
  · rcases capture (time 2) (button 2) fuel with _ | ⟨c2, p2⟩
    · rfl
    · rcases capture (time 3) (button 3) fuel with _ | ⟨c3, p3⟩
      · rfl
      · rfl


/-- C14 as stated fails: when the clock runs through the window of each turn
(reading `k` at the `k`-th call) and no poll yields a press, every capture
ends after four polls with the count `0`, and `main` stores the digits
`[0, 0, 0]`, which are not in `[1, COLS]`. -/
theorem turnLoop_stores_zero_digit :
    capture (fun k => (k : Int)) (fun _ => 0) 10 = some (0, 4) ∧
      turnLoop (fun _ k => (k : Int)) (fun _ _ => 0) 10 3 0 [0, 0, 0] = some [0, 0, 0] ∧
      ¬ (∀ (time button : Nat → Nat → Int) (fuel : Nat) (attSeq guess : List Int),
          attSeq.length = SEQL → turnLoop time button fuel 3 0 attSeq = some guess →
          ∀ d ∈ guess, 1 ≤ d ∧ d ≤ (COLS : Int)) := by
  refine ⟨by decide, by decide, fun h => ?_⟩
  have h0 := h (fun _ k => (k : Int)) (fun _ _ => 0) 10 [0, 0, 0] [0, 0, 0] (by decide)
    (by decide) 0 (by simp)
  omega

/-- C14 as amended: whenever the three capture windows of a round end, the
digits that `main` stores into the guess are the press counts of the three
turns, each of them equal to the number of polls of its turn that yielded a
press, and each in `[0, COLS]` (it is `0` when no poll of the turn yielded a
press); so the guess passed to `countMatches` has `SEQL` digits in
`[0, COLS]`. The windows do end once, in each turn, one of the first `fuel`
readings of the clock in the loop is not before `endTime`. -/
theorem turnLoop_digits_in_range (time button : Nat → Nat → Int) (fuel : Nat)
    (attSeq : List Int) (hlen : attSeq.length = SEQL) :
    (∀ guess, turnLoop time button fuel 3 0 attSeq = some guess →
      guess.length = SEQL ∧ (∀ d ∈ guess, 0 ≤ d ∧ d ≤ (COLS : Int)) ∧
      (∀ t, t < SEQL → ∃ polls,
        capture (time (t + 1)) (button (t + 1)) fuel = some (guess.getD t 0, polls) ∧
        guess.getD t 0 = (pressesIn (button (t + 1)) polls : Int))) ∧
    ((∀ t, 1 ≤ t → t ≤ 3 → ∃ j, j < fuel ∧ ¬ time t (j + 1) < time t 0 + 5) →
      ∃ guess, turnLoop time button fuel 3 0 attSeq = some guess) := by
  have hC : ((COLS : Nat) : Int) = 3 := rfl
  have hS : SEQL = 3 := rfl
  rw [turnLoop_three, hC, hS]
  constructor
  · intro guess h
    rcases h1 : capture (time 1) (button 1) fuel with _ | ⟨c1, p1⟩
    · rw [h1] at h
      simp at h
    rcases h2 : capture (time 2) (button 2) fuel with _ | ⟨c2, p2⟩
    · rw [h1, h2] at h
      simp at h
    rcases h3 : capture (time 3) (button 3) fuel with _ | ⟨c3, p3⟩
    · rw [h1, h2, h3] at h
      simp at h
    rw [h1, h2, h3] at h
    obtain ⟨a1, b1, e1⟩ := capture_spec _ _ _ _ _ h1
    obtain ⟨a2, b2, e2⟩ := capture_spec _ _ _ _ _ h2
    obtain ⟨a3, b3, e3⟩ := capture_spec _ _ _ _ _ h3
    have hg : guess = [c1, c2, c3] := by
      match attSeq, hlen with
      | [a, b, c], _ =>
        simp only [Option.some_bind, Option.some.injEq] at h
        rw [← h]
        rfl
    subst hg
    refine ⟨rfl, ?_, ?_⟩
    · intro d hd
      simp only [List.mem_cons, List.mem_singleton, List.not_mem_nil, or_false] at hd
      rcases hd with rfl | rfl | rfl <;> exact ⟨by assumption, by assumption⟩
    · intro t ht
      interval_cases t
      · exact ⟨p1, h1, e1⟩
      · exact ⟨p2, h2, e2⟩
      · exact ⟨p3, h3, e3⟩
  · intro hend
    have hcap : ∀ t, 1 ≤ t → t ≤ 3 → ∃ res, capture (time t) (button t) fuel = some res := by
      intro t t1 t3
      obtain ⟨j, hj, hj'⟩ := hend t t1 t3
      exact captureLoop_ends_of_lt (time t) (button t) (time t 0 + 5) fuel j 0 0 hj
        (by simpa using hj')
    obtain ⟨r1, h1⟩ := hcap 1 (by omega) (by omega)
    obtain ⟨r2, h2⟩ := hcap 2 (by omega) (by omega)
    obtain ⟨r3, h3⟩ := hcap 3 (by omega) (by omega)
    rw [h1, h2, h3]
    exact ⟨_, rfl⟩

theorem turnLoop_digits_in_range_witness :
    (∀ d ∈ ([1, 0, 3] : List Int), 0 ≤ d ∧ d ≤ (COLS : Int)) ∧
      ∃ guess, turnLoop (fun _ k => (k : Int))
        (fun t k => if t = 2 then 0 else if t = 1 ∧ 0 < k then 0 else 1) 10 3 0 [0, 0, 0]
          = some guess :=
  ⟨((turnLoop_digits_in_range (fun _ k => (k : Int))
        (fun t k => if t = 2 then 0 else if t = 1 ∧ 0 < k then 0 else 1) 10 [0, 0, 0]
        (by decide)).1 [1, 0, 3] (by decide)).2.1,
    (turnLoop_digits_in_range (fun _ k => (k : Int))
        (fun t k => if t = 2 then 0 else if t = 1 ∧ 0 < k then 0 else 1) 10 [0, 0, 0]
        (by decide)).2 (fun t _ _ => ⟨4, by decide, by simp⟩)⟩

end MasterMind
